import Mathlib

/-!
Verification of the VoxelEngine utility scripts.

Shallow embedding of the five Python scripts:
  Tools/generate_crack_sprites.py, Tools/generate_textures.py,
  Tools/assign_textures.py, generate_block_assets.py, update_block_registry.py.

Python's `random` module is modelled by an abstract stream of natural
numbers together with a position: each primitive draw (`randint`,
`choice`, one step of `shuffle`) consumes one stream value.  Every actual
execution of CPython's Mersenne-Twister generator is an instance of this
model (take the stream value at position k to be the k-th accepted value
of `_randbelow`), so a property proved for every stream holds for the
real generator.  Seeding (`random.seed(seed)`) replaces the ambient
generator state by a state that is a function of the seed alone.
-/

/-- Generator state of the `random` module: an infinite value stream and the
current position in it. -/
structure RS where
  stream : Nat → Nat
  idx : Nat

/-- Draw one raw value from the generator. -/
def RS.next (g : RS) : Nat × RS := (g.stream g.idx, ⟨g.stream, g.idx + 1⟩)

/-- Model of `random.randint(a, b)`: a uniform draw from the inclusive range
[a, b], realised as a plus the raw draw reduced mod (b - a + 1). -/
def randint (g : RS) (a b : Int) : Int × RS :=
  let p := g.next
  (a + (p.1 : Int) % (b - a + 1), p.2)

/-- Model of `random.choice(seq)` for an integer sequence: pick the element
whose index is the raw draw reduced mod the length. -/
def pychoice (g : RS) (l : List Int) : Int × RS :=
  let p := g.next
  (l.getD (p.1 % l.length) 0, p.2)

/-- In-place swap of two positions of a list, as done by one step of
`random.shuffle`. -/
def listSwap (l : List α) (i j : Nat) : List α :=
  match l.get? i, l.get? j with
  | some a, some b => (l.set i b).set j a
  | _, _ => l

/-- The Fisher-Yates loop of `random.shuffle`: for i = n, n-1, ..., 1 pick
j = draw mod (i+1) and swap positions i and j. -/
def shuffleAux (g : RS) (l : List α) : Nat → List α × RS
  | 0 => (l, g)
  | n + 1 =>
    let p := g.next
    shuffleAux p.2 (listSwap l (n + 1) (p.1 % (n + 2))) n

/-- Model of `random.shuffle(x)` (CPython: downward Fisher-Yates from
index len(x)-1 to 1). -/
def pyshuffle (g : RS) (l : List α) : List α × RS := shuffleAux g l (l.length - 1)

/-- A pixel coordinate; Python integers, so `Int` (walk coordinates go below 0
before clamping). -/
abbrev Px := Int × Int

/-- State threaded through the random walks of
`generate_full_crack_pattern`: generator, `visited` set (as a list) and the
`ordered_pixels` output list. -/
structure WSt where
  g : RS
  visited : List Px
  ordered : List Px

/-- The visit step of the walk: if the pixel has not been visited, add it to
`visited` and append it to `ordered_pixels`. -/
def WSt.visit (s : WSt) (p : Px) : WSt :=
  if p ∈ s.visited then s else ⟨s.g, p :: s.visited, s.ordered ++ [p]⟩

/-- Draw from `random.choice` through the walk state. -/
def WSt.choice (s : WSt) (l : List Int) : Int × WSt :=
  let p := pychoice s.g l
  (p.1, ⟨p.2, s.visited, s.ordered⟩)

/-- Clamping `max(0, min(bound - 1, x))` used for both coordinates. -/
def clampC (bound x : Int) : Int := max 0 (min (bound - 1) x)

/-- One iteration of the walk loop body of `generate_full_crack_pattern`
(visit the current pixel, draw dx/dy, clamp, occasionally visit a branch
pixel). `step` is the loop counter. -/
def walkStep (w h : Int) (step : Nat) (x y : Int) (s0 : WSt) : (Int × Int) × WSt :=
  let s1 := s0.visit (x, y)
  let d1 := s1.choice [-1, -1, 0, 0, 1, 1, 1]
  let d2 := d1.2.choice [-1, -1, 0, 0, 1, 1, 1]
  let dy := d2.1
  let d3 := if d1.1 = 0 ∧ dy = 0 then d2.2.choice [-1, 1] else (d1.1, d2.2)
  let dx := d3.1
  let x' := clampC w (x + dx)
  let y' := clampC h (y + dy)
  if step > 0 ∧ step % 12 = 0 then
    let b1 := d3.2.choice [-2, -1, 1, 2]
    let b2 := b1.2.choice [-2, -1, 1, 2]
    let bx := clampC w (x' + b1.1)
    let by' := clampC h (y' + b2.1)
    ((x', y'), b2.2.visit (bx, by'))
  else
    ((x', y'), d3.2)

/-- The walk loop: run `n` more iterations starting at loop counter `step`. -/
def walkFrom (w h : Int) : Nat → Nat → Int × Int → WSt → WSt
  | _, 0, _, s => s
  | step, n + 1, (x, y), s =>
    let r := walkStep w h step x y s
    walkFrom w h (step + 1) n r.1 r.2

/-- Draw one crack origin on a random edge of the tile
(`side = randint(0, 3)` then a random position on that side). -/
def drawOrigin (w h : Int) (g : RS) : Px × RS :=
  let ps := randint g 0 3
  let side := ps.1
  if side = 0 then
    let px := randint ps.2 0 (w - 1)
    ((px.1, 0), px.2)
  else if side = 1 then
    let px := randint ps.2 0 (w - 1)
    ((px.1, h - 1), px.2)
  else if side = 2 then
    let py := randint ps.2 0 (h - 1)
    (((0 : Int), py.1), py.2)
  else
    let py := randint ps.2 0 (h - 1)
    ((w - 1, py.1), py.2)

/-- Draw `n` origins in order. -/
def drawOrigins (w h : Int) (g : RS) : Nat → List Px × RS
  | 0 => ([], g)
  | n + 1 =>
    let p := drawOrigin w h g
    let r := drawOrigins w h p.2 n
    (p.1 :: r.1, r.2)

/-- The comprehension `[(px, py) for px in range(width) for py in range(height)]`. -/
def allPixels (w h : Int) : List Px :=
  (List.range w.toNat).flatMap
    (fun px => (List.range h.toNat).map (fun py : Nat => ((px : Int), (py : Int))))

/-- The final fill loop: append every not-yet-visited pixel of the shuffled
full-grid list (without updating `visited`). -/
def fillRemaining (visited ordered : List Px) : List Px → List Px
  | [] => ordered
  | p :: rest =>
    if p ∈ visited then fillRemaining visited ordered rest
    else fillRemaining visited (ordered ++ [p]) rest

/-- Model of `generate_full_crack_pattern(width, height, seed=42)`.
`mtOf seed` is the raw value stream the seeded generator produces (the
function is parametric in it), and `g0` is the ambient generator state
before the call; the function reseeds (`random.seed(seed)`) before any
draw, so `g0` is discarded. -/
def generate_full_crack_pattern (mtOf : Nat → Nat → Nat) (_g0 : RS)
    (w h : Int) (seed : Nat) : List Px :=
  let g : RS := ⟨mtOf seed, 0⟩
  let org := drawOrigins w h g 4
  let walkLen := w.toNat * h.toNat / 2
  let s : WSt :=
    org.1.foldl (fun s o => walkFrom w h 0 walkLen o s) ⟨org.2, [], []⟩
  let sh := pyshuffle s.g (allPixels w h)
  fillRemaining s.visited s.ordered sh.1

/-! ### Pattern invariants (claims C1, C8, C10) -/

/-- A pixel is inside the width times height grid. -/
def InB (w h : Int) (p : Px) : Prop :=
  0 ≤ p.1 ∧ p.1 < w ∧ 0 ≤ p.2 ∧ p.2 < h

instance (w h : Int) (p : Px) : Decidable (InB w h p) := by
  unfold InB; infer_instance

theorem clampC_nonneg (b x : Int) : 0 ≤ clampC b x := le_max_left 0 _

theorem clampC_lt (b x : Int) (hb : 1 ≤ b) : clampC b x < b := by
  unfold clampC
  rcases le_total (b - 1) x with h | h
  · rw [min_eq_left h]; omega
  · rw [min_eq_right h]
    rcases le_total 0 x with h2 | h2
    · rw [max_eq_right h2]; omega
    · rw [max_eq_left h2]; omega

theorem randint_fst (g : RS) (a b : Int) :
    (randint g a b).1 = a + ((g.stream g.idx : Nat) : Int) % (b - a + 1) := rfl

theorem randint_mem (g : RS) (a b : Int) (ha : a ≤ b) :
    a ≤ (randint g a b).1 ∧ (randint g a b).1 ≤ b := by
  rw [randint_fst]
  have hpos : (0 : Int) < b - a + 1 := by omega
  have h1 : 0 ≤ ((g.stream g.idx : Nat) : Int) % (b - a + 1) :=
    Int.emod_nonneg _ (by omega)
  have h2 : ((g.stream g.idx : Nat) : Int) % (b - a + 1) < b - a + 1 :=
    Int.emod_lt_of_pos _ hpos
  omega


theorem drawOrigin_mem (w h : Int) (g : RS) (hw : 1 ≤ w) (hh : 1 ≤ h) :
    InB w h (drawOrigin w h g).1 := by
  have hx := randint_mem ((randint g 0 3).2) 0 (w - 1) (by omega)
  have hy := randint_mem ((randint g 0 3).2) 0 (h - 1) (by omega)
  simp only [drawOrigin, InB]
  split_ifs <;> refine ⟨?_, ?_, ?_, ?_⟩ <;> dsimp only <;> omega

theorem drawOrigins_mem (w h : Int) (hw : 1 ≤ w) (hh : 1 ≤ h) :
    ∀ (n : Nat) (g : RS), ∀ p ∈ (drawOrigins w h g n).1, InB w h p := by
  intro n
  induction n with
  | zero => intro g p hp; simp [drawOrigins] at hp
  | succ k ih =>
    intro g p hp
    simp only [drawOrigins, List.mem_cons] at hp
    rcases hp with rfl | hp
    · exact drawOrigin_mem w h g hw hh
    · exact ih _ p hp

/-- Joint invariant of the walk state: the output list has no duplicates, its
members are exactly the visited set, and all of them are in bounds. -/
def WInv (w h : Int) (v o : List Px) : Prop :=
  o.Nodup ∧ (∀ p : Px, p ∈ v ↔ p ∈ o) ∧ ∀ p ∈ o, InB w h p

theorem visit_inv {w h : Int} (s : WSt) (p : Px)
    (hs : WInv w h s.visited s.ordered) (hp : InB w h p) :
    WInv w h (s.visit p).visited (s.visit p).ordered := by
  unfold WSt.visit
  split
  · exact hs
  · rename_i hmem
    obtain ⟨hnd, hiff, hband⟩ := hs
    have hpo : p ∉ s.ordered := fun hc => hmem ((hiff p).mpr hc)
    refine ⟨?_, ?_, ?_⟩
    · simpa [List.concat_eq_append] using hnd.concat hpo
    · intro q
      simp only [List.mem_cons, List.mem_append, List.mem_singleton]
      rw [hiff q]
      tauto
    · intro q hq
      rcases List.mem_append.mp hq with hq | hq
      · exact hband q hq
      · rw [List.mem_singleton.mp hq]; exact hp

theorem choice_inv {w h : Int} (s : WSt) (l : List Int)
    (hs : WInv w h s.visited s.ordered) :
    WInv w h (s.choice l).2.visited (s.choice l).2.ordered := hs

theorem walkStep_inv {w h : Int} (hw : 1 ≤ w) (hh : 1 ≤ h) (step : Nat)
    (x y : Int) (s0 : WSt) (hs : WInv w h s0.visited s0.ordered)
    (hxy : InB w h (x, y)) :
    WInv w h (walkStep w h step x y s0).2.visited (walkStep w h step x y s0).2.ordered ∧
      InB w h (walkStep w h step x y s0).1 := by
  have h1 := visit_inv s0 (x, y) hs hxy
  have hout : ∀ a b : Int, InB w h (clampC w a, clampC h b) := fun a b =>
    ⟨clampC_nonneg _ _, clampC_lt _ _ hw, clampC_nonneg _ _, clampC_lt _ _ hh⟩
  simp only [walkStep]
  split
  · refine ⟨?_, hout _ _⟩
    apply visit_inv
    · split
      · exact choice_inv _ _ (choice_inv _ _ (choice_inv _ _ (choice_inv _ _ (choice_inv _ _ h1))))
      · exact choice_inv _ _ (choice_inv _ _ (choice_inv _ _ (choice_inv _ _ h1)))
    · exact hout _ _
  · constructor
    · split
      · exact choice_inv _ _ (choice_inv _ _ (choice_inv _ _ h1))
      · exact choice_inv _ _ (choice_inv _ _ h1)
    · exact hout _ _

theorem walkFrom_inv {w h : Int} (hw : 1 ≤ w) (hh : 1 ≤ h) :
    ∀ (n step : Nat) (xy : Int × Int) (s : WSt),
      WInv w h s.visited s.ordered → InB w h xy →
      WInv w h (walkFrom w h step n xy s).visited (walkFrom w h step n xy s).ordered := by
  intro n
  induction n with
  | zero => intro step xy s hs _; exact hs
  | succ k ih =>
    intro step xy s hs hxy
    obtain ⟨x, y⟩ := xy
    have hst := walkStep_inv hw hh step x y s hs hxy
    exact ih (step + 1) _ _ hst.1 hst.2

theorem foldl_walk_inv {w h : Int} (hw : 1 ≤ w) (hh : 1 ≤ h) (walkLen : Nat) :
    ∀ (os : List Px) (s : WSt), (∀ o ∈ os, InB w h o) →
      WInv w h s.visited s.ordered →
      WInv w h (os.foldl (fun s o => walkFrom w h 0 walkLen o s) s).visited
        (os.foldl (fun s o => walkFrom w h 0 walkLen o s) s).ordered := by
  intro os
  induction os with
  | nil => intro s _ hs; exact hs
  | cons o rest ih =>
    intro s hos hs
    simp only [List.foldl_cons]
    exact ih _ (fun q hq => hos q (List.mem_cons_of_mem _ hq))
      (walkFrom_inv hw hh walkLen 0 o s hs (hos o (List.mem_cons_self _ _)))

/-! ### Shuffle is a permutation -/

theorem cons_set_perm {α : Type} :
    ∀ (t : List α) (k : Nat) (hk : k < t.length) (a : α),
      List.Perm (t[k] :: t.set k a) (a :: t) := by
  intro t
  induction t with
  | nil => intro k hk; simp at hk
  | cons x s ih =>
    intro k hk a
    cases k with
    | zero => simpa using List.Perm.swap a x s
    | succ m =>
      have hm : m < s.length := by simpa using hk
      simp only [List.getElem_cons_succ, List.set_cons_succ]
      refine List.Perm.trans (List.Perm.swap x (s[m]) (s.set m a)) ?_
      exact List.Perm.trans ((ih m hm a).cons x) (List.Perm.swap a x s)

theorem set_set_perm {α : Type} :
    ∀ (l : List α) (i j : Nat) (hi : i < l.length) (hj : j < l.length),
      List.Perm ((l.set i l[j]).set j l[i]) l := by
  intro l
  induction l with
  | nil => intro i j hi; simp at hi
  | cons x s ih =>
    intro i j hi hj
    cases i with
    | zero =>
      cases j with
      | zero => simp
      | succ n =>
        have hn : n < s.length := by simpa using hj
        simp only [List.getElem_cons_zero, List.getElem_cons_succ,
          List.set_cons_zero, List.set_cons_succ]
        exact cons_set_perm s n hn x
    | succ m =>
      have hm : m < s.length := by simpa using hi
      cases j with
      | zero =>
        simp only [List.getElem_cons_zero, List.getElem_cons_succ,
          List.set_cons_zero, List.set_cons_succ]
        exact cons_set_perm s m hm x
      | succ n =>
        have hn : n < s.length := by simpa using hj
        simp only [List.getElem_cons_succ, List.set_cons_succ]
        exact (ih m n hm hn).cons x

theorem listSwap_perm {α : Type} (l : List α) (i j : Nat) :
    List.Perm (listSwap l i j) l := by
  unfold listSwap
  split
  · rename_i a b ha hb
    rw [List.get?_eq_getElem?] at ha hb
    obtain ⟨hi, rfl⟩ := List.getElem?_eq_some.mp ha
    obtain ⟨hj, rfl⟩ := List.getElem?_eq_some.mp hb
    exact set_set_perm l i j hi hj
  · exact List.Perm.refl l

theorem shuffleAux_perm {α : Type} :
    ∀ (n : Nat) (g : RS) (l : List α), List.Perm (shuffleAux g l n).1 l := by
  intro n
  induction n with
  | zero => intro g l; exact List.Perm.refl l
  | succ k ih =>
    intro g l
    exact (ih _ _).trans (listSwap_perm l (k + 1) _)

theorem pyshuffle_perm {α : Type} (g : RS) (l : List α) :
    List.Perm (pyshuffle g l).1 l := shuffleAux_perm _ _ _

/-! ### The full pixel grid -/

theorem mem_allPixels (w h : Int) (p : Px) : p ∈ allPixels w h ↔ InB w h p := by
  obtain ⟨p1, p2⟩ := p
  unfold allPixels InB
  rw [List.mem_flatMap]
  constructor
  · rintro ⟨a, ha, hmem⟩
    rw [List.mem_map] at hmem
    obtain ⟨b, hb, he⟩ := hmem
    rw [List.mem_range] at ha
    rw [List.mem_range] at hb
    injection he with he1 he2
    dsimp only
    omega
  · intro hB
    dsimp only at hB
    refine ⟨p1.toNat, ?_, ?_⟩
    · rw [List.mem_range]; omega
    · rw [List.mem_map]
      refine ⟨p2.toNat, ?_, ?_⟩
      · rw [List.mem_range]; omega
      · have e1 : ((p1.toNat : Nat) : Int) = p1 := by omega
        have e2 : ((p2.toNat : Nat) : Int) = p2 := by omega
        rw [e1, e2]

theorem nodup_allPixels (w h : Int) : (allPixels w h).Nodup := by
  unfold allPixels
  rw [List.nodup_flatMap]
  constructor
  · intro x _
    refine List.Nodup.map ?_ (List.nodup_range h.toNat)
    intro a b hab
    simpa using hab
  · rw [List.pairwise_iff_getElem]
    intro i j hi hj hij
    simp only [Function.onFun, List.getElem_range]
    intro q hq1 hq2
    simp only [List.mem_map] at hq1 hq2
    obtain ⟨b1, _, rfl⟩ := hq1
    obtain ⟨b2, _, he⟩ := hq2
    have hji := congrArg Prod.fst he
    simp only [Int.natCast_inj] at hji
    omega

theorem length_allPixels (w h : Int) :
    (allPixels w h).length = w.toNat * h.toNat := by
  unfold allPixels
  rw [List.length_flatMap]
  simp [Function.comp_def, List.map_const', mul_comm]

theorem fillRemaining_eq (v : List Px) :
    ∀ (rest o : List Px),
      fillRemaining v o rest = o ++ rest.filter (fun p => !(decide (p ∈ v))) := by
  intro rest
  induction rest with
  | nil => intro o; simp [fillRemaining]
  | cons p t ih =>
    intro o
    by_cases hp : p ∈ v
    · rw [show fillRemaining v o (p :: t) = fillRemaining v o t by
        simp [fillRemaining, hp]]
      rw [ih o]
      simp [hp]
    · rw [show fillRemaining v o (p :: t) = fillRemaining v (o ++ [p]) t by
        simp [fillRemaining, hp]]
      rw [ih (o ++ [p])]
      simp [hp]

/-- Structural description of the output of `generate_full_crack_pattern`:
the ordered walk output followed by the unvisited remainder of the shuffled
grid, together with the walk invariant. -/
theorem pattern_decomp (mtOf : Nat → Nat → Nat) (g0 : RS) (w h : Int)
    (seed : Nat) (hw : 1 ≤ w) (hh : 1 ≤ h) :
    ∃ (v o sh : List Px),
      WInv w h v o ∧ List.Perm sh (allPixels w h) ∧
      generate_full_crack_pattern mtOf g0 w h seed
        = o ++ sh.filter (fun p => !(decide (p ∈ v))) := by
  simp only [generate_full_crack_pattern]
  set g : RS := ⟨mtOf seed, 0⟩ with hg
  set org := drawOrigins w h g 4 with horg
  set s := org.1.foldl (fun s o => walkFrom w h 0 (w.toNat * h.toNat / 2) o s)
    (⟨org.2, [], []⟩ : WSt) with hs
  refine ⟨s.visited, s.ordered, (pyshuffle s.g (allPixels w h)).1, ?_, ?_, ?_⟩
  · apply foldl_walk_inv hw hh
    · intro o ho
      exact drawOrigins_mem w h hw hh 4 g o ho
    · exact ⟨List.nodup_nil, fun p => Iff.rfl, fun p hp => absurd hp (List.not_mem_nil p)⟩
  · exact pyshuffle_perm _ _
  · exact fillRemaining_eq _ _ _

/-- C8: the returned list is a permutation of the full pixel grid. -/
theorem pattern_props (mtOf : Nat → Nat → Nat) (g0 : RS) (w h : Int)
    (seed : Nat) (hw : 1 ≤ w) (hh : 1 ≤ h) :
    (generate_full_crack_pattern mtOf g0 w h seed).Nodup ∧
    (∀ p : Px, p ∈ generate_full_crack_pattern mtOf g0 w h seed ↔ InB w h p) ∧
    (generate_full_crack_pattern mtOf g0 w h seed).length = w.toNat * h.toNat := by
  obtain ⟨v, o, sh, ⟨hnd, hiff, hbnd⟩, hperm, he⟩ :=
    pattern_decomp mtOf g0 w h seed hw hh
  rw [he]
  have hshnd : sh.Nodup := hperm.nodup_iff.mpr (nodup_allPixels w h)
  have hmem : ∀ p : Px, p ∈ sh ↔ InB w h p := by
    intro p
    rw [hperm.mem_iff, mem_allPixels]
  have hfmem : ∀ p : Px,
      p ∈ sh.filter (fun p => !(decide (p ∈ v))) ↔ InB w h p ∧ p ∉ o := by
    intro p
    rw [List.mem_filter]
    simp only [Bool.not_eq_true', decide_eq_false_iff_not]
    rw [hmem p, hiff p]
  have hndall : (o ++ sh.filter (fun p => !(decide (p ∈ v)))).Nodup := by
    rw [List.nodup_append]
    refine ⟨hnd, hshnd.filter _, ?_⟩
    intro p hpo hpf
    exact ((hfmem p).mp hpf).2 hpo
  have hmemall : ∀ p : Px,
      p ∈ o ++ sh.filter (fun p => !(decide (p ∈ v))) ↔ InB w h p := by
    intro p
    rw [List.mem_append, hfmem p]
    constructor
    · rintro (hp | hp)
      · exact hbnd p hp
      · exact hp.1
    · intro hp
      by_cases hpo : p ∈ o
      · exact Or.inl hpo
      · exact Or.inr ⟨hp, hpo⟩
  refine ⟨hndall, hmemall, ?_⟩
  have : List.Perm (o ++ sh.filter (fun p => !(decide (p ∈ v)))) (allPixels w h) := by
    rw [List.perm_ext_iff_of_nodup hndall (nodup_allPixels w h)]
    intro p
    rw [hmemall p, mem_allPixels]
  rw [this.length_eq, length_allPixels]

/-! ### Crack stage sprites (generate_crack_sprites) -/

/-- An RGBA pixel value. -/
abbrev RGBA := Nat × Nat × Nat × Nat

/-- Model of `Image.putpixel`: point update of an image function. -/
def putpx {α : Type} [DecidableEq α] (img : α → RGBA) (p : α) (c : RGBA) : α → RGBA :=
  fun q => if q = p then c else img q

/-- The stage coverage percentages of generate_crack_sprites, given in
hundredths: the Python floats 0.06, 0.10, ..., 0.65 are exactly the
rationals 6/100, ..., 65/100 for the purposes of int(256 * pct): the float
products and the rational products truncate to the same integers. -/
def coveragePcts : List Nat := [6, 10, 15, 21, 28, 35, 42, 50, 58, 65]

/-- width * height of one sprite. -/
def total_pixels : Nat := 16 * 16

/-- stage_coverage = [int(total_pixels * pct) for pct in [0.06, ..., 0.65]]. -/
def stage_coverage : List Nat := coveragePcts.map (fun n => total_pixels * n / 100)

/-- crack_alpha = min(255, 120 + stage * 15). -/
def crackAlpha (stage : Nat) : Nat := min 255 (120 + stage * 15)

/-- Model of the stage image built by `generate_crack_sprites`: starting
from a fully transparent 16 x 16 RGBA image, put an opaque black pixel at
pattern[i] for every i < min(num_pixels, len(pattern)). -/
def crackStageImg (mtOf : Nat → Nat → Nat) (g0 : RS) (stage : Nat) : Px → RGBA :=
  let pattern := generate_full_crack_pattern mtOf g0 16 16 42
  let num := stage_coverage.getD stage 0
  (pattern.take (min num pattern.length)).foldl
    (fun img p => putpx img p (0, 0, 0, crackAlpha stage)) (fun _ => (0, 0, 0, 0))

/-- The per-sprite opaque-pixel count computed (and printed) by the script:
the number of grid pixels with nonzero alpha. -/
def actualOpaque (img : Px → RGBA) : Nat :=
  ((allPixels 16 16).filter (fun p => decide (0 < (img p).2.2.2))).length

theorem foldl_putpx_const {α : Type} [DecidableEq α] (c : RGBA) :
    ∀ (l : List α) (base : α → RGBA) (q : α),
      (l.foldl (fun img p => putpx img p c) base) q = if q ∈ l then c else base q := by
  intro l
  induction l with
  | nil => intro base q; simp
  | cons p t ih =>
    intro base q
    rw [List.foldl_cons, ih]
    by_cases hqt : q ∈ t
    · simp [hqt]
    · by_cases hqp : q = p
      · simp [hqt, hqp, putpx]
      · simp [hqt, hqp, putpx]

theorem crackAlpha_pos (stage : Nat) : 0 < crackAlpha stage := by
  unfold crackAlpha
  omega

theorem stage_coverage_values :
    stage_coverage = [15, 25, 38, 53, 71, 89, 107, 128, 148, 166] := by decide

theorem stage_coverage_le (s : Nat) : stage_coverage.getD s 0 ≤ 256 := by
  rw [List.getD_eq_getElem?_getD]
  cases he : stage_coverage[s]? with
  | none => simp
  | some x =>
    have hx : x ∈ stage_coverage := List.getElem?_mem he
    have : ∀ y ∈ stage_coverage, y ≤ 256 := by decide
    simpa using this x hx

theorem crackStageImg_eval_mem (mtOf : Nat → Nat → Nat) (g0 : RS) (s : Nat) (p : Px)
    (hm : p ∈ (generate_full_crack_pattern mtOf g0 16 16 42).take (stage_coverage.getD s 0)) :
    crackStageImg mtOf g0 s p = (0, 0, 0, crackAlpha s) := by
  obtain ⟨_, _, hlen⟩ := pattern_props mtOf g0 16 16 42 (by norm_num) (by norm_num)
  have hlen256 : (generate_full_crack_pattern mtOf g0 16 16 42).length = 256 := by
    rw [hlen]; rfl
  simp only [crackStageImg]
  rw [foldl_putpx_const, hlen256, min_eq_left (stage_coverage_le s)]
  exact if_pos hm

theorem crackStageImg_eval_notmem (mtOf : Nat → Nat → Nat) (g0 : RS) (s : Nat) (p : Px)
    (hm : p ∉ (generate_full_crack_pattern mtOf g0 16 16 42).take (stage_coverage.getD s 0)) :
    crackStageImg mtOf g0 s p = (0, 0, 0, 0) := by
  obtain ⟨_, _, hlen⟩ := pattern_props mtOf g0 16 16 42 (by norm_num) (by norm_num)
  have hlen256 : (generate_full_crack_pattern mtOf g0 16 16 42).length = 256 := by
    rw [hlen]; rfl
  simp only [crackStageImg]
  rw [foldl_putpx_const, hlen256, min_eq_left (stage_coverage_le s)]
  exact if_neg hm

theorem crackPix_iff (mtOf : Nat → Nat → Nat) (g0 : RS) (s : Nat) (p : Px) :
    (0 < (crackStageImg mtOf g0 s p).2.2.2 ↔
      p ∈ (generate_full_crack_pattern mtOf g0 16 16 42).take (stage_coverage.getD s 0)) := by
  by_cases hm : p ∈ (generate_full_crack_pattern mtOf g0 16 16 42).take (stage_coverage.getD s 0)
  · rw [crackStageImg_eval_mem mtOf g0 s p hm]
    exact iff_of_true (crackAlpha_pos s) hm
  · rw [crackStageImg_eval_notmem mtOf g0 s p hm]
    exact iff_of_false (by decide) hm

/-- C1: the ten stage sprites are prefixes of the single pattern; their crack
pixel sets grow strictly, with the int(256 * pct) pixel counts. -/
theorem crack_stage_subsets (mtOf : Nat → Nat → Nat) (g0 : RS) (i j : Nat)
    (hij : i < j) (hj : j ≤ 9) :
    stage_coverage = [15, 25, 38, 53, 71, 89, 107, 128, 148, 166] ∧
    (∀ s, s ≤ 9 → ∀ p : Px,
        (0 < (crackStageImg mtOf g0 s p).2.2.2 ↔
          p ∈ (generate_full_crack_pattern mtOf g0 16 16 42).take
            (stage_coverage.getD s 0))) ∧
    (∀ p : Px, 0 < (crackStageImg mtOf g0 i p).2.2.2 →
        0 < (crackStageImg mtOf g0 j p).2.2.2) ∧
    (∃ p : Px, 0 < (crackStageImg mtOf g0 j p).2.2.2 ∧
        ¬ 0 < (crackStageImg mtOf g0 i p).2.2.2) ∧
    (∀ s, s ≤ 9 → actualOpaque (crackStageImg mtOf g0 s) = stage_coverage.getD s 0) := by
  obtain ⟨hnd, hmem, hlen⟩ := pattern_props mtOf g0 16 16 42 (by norm_num) (by norm_num)
  have hlen256 : (generate_full_crack_pattern mtOf g0 16 16 42).length = 256 := by
    rw [hlen]; rfl
  have hci : stage_coverage.getD i 0 < stage_coverage.getD j 0 := by
    rw [stage_coverage_values]
    interval_cases j <;> interval_cases i <;> decide
  refine ⟨stage_coverage_values, fun s _ p => crackPix_iff mtOf g0 s p, ?_, ?_, ?_⟩
  · intro p hp
    rw [crackPix_iff mtOf g0 i p] at hp
    rw [crackPix_iff mtOf g0 j p]
    have heq : (generate_full_crack_pattern mtOf g0 16 16 42).take (stage_coverage.getD i 0)
        = ((generate_full_crack_pattern mtOf g0 16 16 42).take
            (stage_coverage.getD j 0)).take (stage_coverage.getD i 0) := by
      rw [List.take_take, min_eq_left hci.le]
    rw [heq] at hp
    exact List.mem_of_mem_take hp
  · have hcij : stage_coverage.getD i 0
        < (generate_full_crack_pattern mtOf g0 16 16 42).length := by
      rw [hlen256]
      exact lt_of_lt_of_le hci (stage_coverage_le j)
    refine ⟨(generate_full_crack_pattern mtOf g0 16 16 42)[stage_coverage.getD i 0], ?_, ?_⟩
    · rw [crackPix_iff mtOf g0 j _]
      rw [List.getElem_take' _ hcij hci]
      exact List.getElem_mem _
    · rw [crackPix_iff mtOf g0 i _]
      intro hmem'
      obtain ⟨k, hk, hke⟩ := List.mem_iff_getElem.mp hmem'
      have hk' : k < stage_coverage.getD i 0 := by
        rw [List.length_take] at hk
        omega
      have hkp : k < (generate_full_crack_pattern mtOf g0 16 16 42).length := by omega
      rw [List.getElem_take] at hke
      have := (hnd.getElem_inj_iff).mp hke
      omega
  · intro s _
    unfold actualOpaque
    have hc : ∀ p ∈ allPixels 16 16,
        (decide (0 < (crackStageImg mtOf g0 s p).2.2.2))
          = decide (p ∈ (generate_full_crack_pattern mtOf g0 16 16 42).take
              (stage_coverage.getD s 0)) := by
      intro p _
      rw [decide_eq_decide]
      exact crackPix_iff mtOf g0 s p
    rw [List.filter_congr hc]
    have hndtake : ((generate_full_crack_pattern mtOf g0 16 16 42).take
        (stage_coverage.getD s 0)).Nodup :=
      List.Nodup.sublist (List.take_sublist _ _) hnd
    have hperm : List.Perm
        ((allPixels 16 16).filter (fun p =>
          decide (p ∈ (generate_full_crack_pattern mtOf g0 16 16 42).take
            (stage_coverage.getD s 0))))
        ((generate_full_crack_pattern mtOf g0 16 16 42).take (stage_coverage.getD s 0)) := by
      rw [List.perm_ext_iff_of_nodup ((nodup_allPixels 16 16).filter _) hndtake]
      intro q
      rw [List.mem_filter]
      simp only [decide_eq_true_eq]
      constructor
      · exact fun hq => hq.2
      · intro hq
        refine ⟨?_, hq⟩
        rw [mem_allPixels]
        rw [← hmem q]
        exact List.mem_of_mem_take hq
    rw [hperm.length_eq, List.length_take, hlen256,
      min_eq_left (stage_coverage_le s)]

theorem count_one_of_nodup {α : Type} [BEq α] [LawfulBEq α] {l : List α} {p : α}
    (h : l.Nodup) (hp : p ∈ l) : l.count p = 1 := by
  induction l with
  | nil => cases hp
  | cons a t ih =>
    rcases List.mem_cons.mp hp with rfl | hpt
    · have hat : p ∉ t := (List.nodup_cons.mp h).1
      rw [List.count_cons_self, List.count_eq_zero.mpr hat]
    · have hne : p ≠ a := by
        rintro rfl
        exact (List.nodup_cons.mp h).1 hpt
      rw [List.count_cons_of_ne hne, ih (List.nodup_cons.mp h).2 hpt]

/-- C8: generate_full_crack_pattern returns a permutation of the full pixel
grid: entries are distinct and in bounds, every in-bounds coordinate occurs
exactly once, and the length is width * height (256 for a 16 x 16 grid). -/
theorem generate_full_crack_pattern_grid_perm (mtOf : Nat → Nat → Nat) (g0 : RS)
    (w h : Int) (seed : Nat) (hw : 1 ≤ w) (hh : 1 ≤ h) :
    (generate_full_crack_pattern mtOf g0 w h seed).Nodup ∧
    (∀ p : Px, p ∈ generate_full_crack_pattern mtOf g0 w h seed ↔ InB w h p) ∧
    (∀ p : Px, InB w h p → (generate_full_crack_pattern mtOf g0 w h seed).count p = 1) ∧
    (generate_full_crack_pattern mtOf g0 w h seed).length = w.toNat * h.toNat := by
  obtain ⟨hnd, hmem, hlen⟩ := pattern_props mtOf g0 w h seed hw hh
  exact ⟨hnd, hmem,
    fun p hp => count_one_of_nodup hnd ((hmem p).mpr hp), hlen⟩

/-- Witness for C8 at a concrete stream, 16 x 16 grid and seed 42. -/
theorem generate_full_crack_pattern_grid_perm_witness :
    (1 : Int) ≤ 16 ∧
    (generate_full_crack_pattern (fun _ _ => 0) ⟨fun _ => 0, 0⟩ 16 16 42).length = 256 := by
  refine ⟨by norm_num, ?_⟩
  have h := (generate_full_crack_pattern_grid_perm (fun _ _ => 0) ⟨fun _ => 0, 0⟩
    16 16 42 (by norm_num) (by norm_num)).2.2.2
  rw [h]
  rfl

/-- Witness for C1 at a concrete stream and stages 0 < 1. -/
theorem crack_stage_subsets_witness :
    (0 : Nat) < 1 ∧
    actualOpaque (crackStageImg (fun _ _ => 0) ⟨fun _ => 0, 0⟩ 0) = 15 := by
  refine ⟨by decide, ?_⟩
  have h := (crack_stage_subsets (fun _ _ => 0) ⟨fun _ => 0, 0⟩ 0 1
    (by decide) (by decide)).2.2.2.2 0 (by decide)
  rw [h]
  decide

/-- C10: the crack pattern and all stage sprites depend only on the
dimensions and the seed: the ambient generator state before the call is
discarded by the reseeding `random.seed(seed)`, so two runs agree. -/
theorem crack_pattern_deterministic (mtOf : Nat → Nat → Nat) (g0 g1 : RS)
    (w h : Int) (seed : Nat) :
    generate_full_crack_pattern mtOf g0 w h seed
      = generate_full_crack_pattern mtOf g1 w h seed ∧
    ∀ stage : Nat, crackStageImg mtOf g0 stage = crackStageImg mtOf g1 stage :=
  ⟨rfl, fun _ => rfl⟩

/-! ### generate_textures.py (claims C4, C5) -/

/-- An RGB color as used in the TEXTURES table. -/
abbrev Color := Nat × Nat × Nat

/-- One entry of the TEXTURES table: index, suffix, and either a single
color or a color1/color2 pair (key present = `some`). -/
structure TexEntry where
  index : Nat
  suffix : String
  color : Option Color
  color1 : Option Color
  color2 : Option Color
deriving DecidableEq

instance : Inhabited TexEntry := ⟨⟨0, "", none, none, none⟩⟩

def ATLAS_SIZE : Nat := 256
def TILE_SIZE : Nat := 16
def TILES_PER_ROW : Nat := 16

/-- The TEXTURES table of generate_textures.py. -/
def TEXTURES : List TexEntry := [
  ⟨0, "air", some (200, 200, 200), none, none⟩,
  ⟨1, "grass_top", some (76, 153, 0), none, none⟩,
  ⟨2, "dirt", some (139, 90, 43), none, none⟩,
  ⟨3, "stone", some (136, 136, 136), none, none⟩,
  ⟨4, "wood_side", some (160, 110, 50), none, none⟩,
  ⟨5, "leaves", some (34, 120, 34), none, none⟩,
  ⟨6, "sand", some (219, 211, 160), none, none⟩,
  ⟨7, "water", some (30, 100, 200), none, none⟩,
  ⟨8, "glass", some (200, 230, 255), none, none⟩,
  ⟨9, "cobblestone", some (120, 120, 120), none, none⟩,
  ⟨10, "planks", some (180, 140, 80), none, none⟩,
  ⟨11, "brick", some (170, 80, 60), none, none⟩,
  ⟨12, "gravel", some (140, 130, 125), none, none⟩,
  ⟨13, "iron", some (200, 200, 200), none, none⟩,
  ⟨14, "gold", some (255, 215, 0), none, none⟩,
  ⟨15, "diamond", some (80, 220, 220), none, none⟩,
  ⟨16, "coal", some (50, 50, 50), none, none⟩,
  ⟨17, "obsidian", some (20, 15, 30), none, none⟩,
  ⟨18, "snow", some (240, 240, 255), none, none⟩,
  ⟨19, "ice", some (170, 210, 240), none, none⟩,
  ⟨20, "clay", some (160, 165, 175), none, none⟩,
  ⟨21, "sandstone_top", some (220, 205, 155), none, none⟩,
  ⟨22, "wool", some (235, 235, 235), none, none⟩,
  ⟨23, "bedrock", some (85, 85, 85), none, none⟩,
  ⟨24, "torch", some (255, 200, 50), none, none⟩,
  ⟨25, "flower", some (255, 80, 80), none, none⟩,
  ⟨26, "grass_side", none, some (76, 153, 0), some (139, 90, 43)⟩,
  ⟨27, "wood_top", some (140, 100, 45), none, none⟩,
  ⟨28, "sandstone_side", some (195, 180, 130), none, none⟩,
  ⟨29, "sandstone_bottom", some (200, 190, 150), none, none⟩,
  ⟨30, "snow_side", none, some (240, 240, 255), some (139, 90, 43)⟩]

/-- The double loop `for x in range(TILE_SIZE): for y in range(TILE_SIZE)`. -/
def tileCoords : List (Nat × Nat) :=
  (List.range TILE_SIZE).flatMap
    (fun x => (List.range TILE_SIZE).map (fun y : Nat => (x, y)))

/-- Model of create_tile: a 16 x 16 RGBA image function, transparent where
nothing was drawn.  `if color:` fills all pixels with color + (255,);
`elif color1 and color2:` fills the top half with color1 and the bottom
half with color2. -/
def create_tile (color color1 color2 : Option Color) : (Nat × Nat) → RGBA :=
  let base : (Nat × Nat) → RGBA := fun _ => (0, 0, 0, 0)
  match color with
  | some c => tileCoords.foldl (fun img p => putpx img p (c.1, c.2.1, c.2.2, 255)) base
  | none =>
    match color1, color2 with
    | some c1, some c2 =>
      tileCoords.foldl (fun img p =>
        putpx img p (if p.2 < TILE_SIZE / 2 then (c1.1, c1.2.1, c1.2.2, 255)
          else (c2.1, c2.2.1, c2.2.2, 255))) base
    | _, _ => base

/-- The call pattern of generate_textures: dual-color when the entry has a
color1 key, else single color. -/
def tileFor (e : TexEntry) : (Nat × Nat) → RGBA :=
  if e.color1.isSome then create_tile none e.color1 e.color2
  else create_tile e.color none none

theorem foldl_putpx_eval {α : Type} [DecidableEq α] (v : α → RGBA) :
    ∀ (l : List α) (base : α → RGBA) (q : α),
      (l.foldl (fun img p => putpx img p (v p)) base) q
        = if q ∈ l then v q else base q := by
  intro l
  induction l with
  | nil => intro base q; simp
  | cons p t ih =>
    intro base q
    rw [List.foldl_cons, ih]
    by_cases hqt : q ∈ t
    · simp [hqt]
    · by_cases hqp : q = p
      · simp [hqt, hqp, putpx]
      · simp [hqt, hqp, putpx]

theorem mem_tileCoords (x y : Nat) : (x, y) ∈ tileCoords ↔ x < 16 ∧ y < 16 := by
  unfold tileCoords TILE_SIZE
  rw [List.mem_flatMap]
  constructor
  · rintro ⟨a, ha, hmem⟩
    rw [List.mem_map] at hmem
    obtain ⟨b, hb, he⟩ := hmem
    rw [List.mem_range] at ha
    rw [List.mem_range] at hb
    injection he with he1 he2
    omega
  · intro hB
    refine ⟨x, ?_, ?_⟩
    · rw [List.mem_range]; omega
    · rw [List.mem_map]
      exact ⟨y, by rw [List.mem_range]; omega, rfl⟩

theorem create_tile_solid (c : Color) (c1 c2 : Option Color) (x y : Nat)
    (hx : x < 16) (hy : y < 16) :
    create_tile (some c) c1 c2 (x, y) = (c.1, c.2.1, c.2.2, 255) := by
  show (tileCoords.foldl (fun img p => putpx img p (c.1, c.2.1, c.2.2, 255))
    (fun _ => (0, 0, 0, 0))) (x, y) = _
  rw [foldl_putpx_const]
  exact if_pos ((mem_tileCoords x y).mpr ⟨hx, hy⟩)

theorem create_tile_dual (c1 c2 : Color) (x y : Nat) (hx : x < 16) (hy : y < 16) :
    create_tile none (some c1) (some c2) (x, y)
      = if y < 8 then (c1.1, c1.2.1, c1.2.2, 255) else (c2.1, c2.2.1, c2.2.2, 255) := by
  have h := foldl_putpx_eval
    (fun p : Nat × Nat => if p.2 < TILE_SIZE / 2 then (c1.1, c1.2.1, c1.2.2, 255)
      else (c2.1, c2.2.1, c2.2.2, 255)) tileCoords (fun _ => (0, 0, 0, 0)) (x, y)
  rw [if_pos ((mem_tileCoords x y).mpr ⟨hx, hy⟩)] at h
  exact h

/-- C4: every TEXTURES entry is either single-color or dual-color, and
create_tile paints a solid tile with alpha 255 for the former and a
top-half/bottom-half split tile for the latter. -/
theorem create_tile_spec :
    TEXTURES.length = 31 ∧
    (∀ e ∈ TEXTURES,
      (e.color.isSome = true ∧ e.color1 = none ∧ e.color2 = none) ∨
      (e.color = none ∧ e.color1.isSome = true ∧ e.color2.isSome = true)) ∧
    (∀ e : TexEntry, ∀ x y : Nat, x < 16 → y < 16 →
      (∀ c : Color, e.color = some c → e.color1 = none →
        tileFor e (x, y) = (c.1, c.2.1, c.2.2, 255)) ∧
      (∀ c1 c2 : Color, e.color = none → e.color1 = some c1 → e.color2 = some c2 →
        tileFor e (x, y) = if y < 8 then (c1.1, c1.2.1, c1.2.2, 255)
          else (c2.1, c2.2.1, c2.2.2, 255))) := by
  refine ⟨by decide, by decide, ?_⟩
  intro e x y hx hy
  constructor
  · intro c hc h1
    unfold tileFor
    rw [h1]
    simp only [Option.isSome_none, Bool.false_eq_true, if_false]
    rw [hc]
    exact create_tile_solid c none none x y hx hy
  · intro c1 c2 hc h1 h2
    unfold tileFor
    rw [h1, h2]
    simp only [Option.isSome_some, if_true]
    exact create_tile_dual c1 c2 x y hx hy

/-- Witness for C4 at the first TEXTURES entry and pixel (3, 5). -/
theorem create_tile_spec_witness :
    tileFor ⟨0, "air", some (200, 200, 200), none, none⟩ (3, 5) = (200, 200, 200, 255) :=
  (create_tile_spec.2.2 ⟨0, "air", some (200, 200, 200), none, none⟩ 3 5
    (by decide) (by decide)).1 (200, 200, 200) rfl rfl

/-- Atlas placement of a tile index (Unity-compatible: rows fill bottom-up). -/
def atlasPos (index : Nat) : Nat × Nat :=
  ((index % TILES_PER_ROW) * TILE_SIZE,
   (ATLAS_SIZE - TILE_SIZE) - index / TILES_PER_ROW * TILE_SIZE)

/-- Model of `Image.paste(tile, (x, y))` for a 16 x 16 RGBA tile: inside the
destination rectangle the tile pixel is copied, elsewhere the image is kept. -/
def pasteAt (img t : (Nat × Nat) → RGBA) (pos : Nat × Nat) : (Nat × Nat) → RGBA :=
  fun q =>
    if pos.1 ≤ q.1 ∧ q.1 < pos.1 + TILE_SIZE ∧ pos.2 ≤ q.2 ∧ q.2 < pos.2 + TILE_SIZE
    then t (q.1 - pos.1, q.2 - pos.2) else img q

/-- The BlockAtlas image: every TEXTURES tile pasted at its atlas position
into an initially transparent 256 x 256 image. -/
def blockAtlas : (Nat × Nat) → RGBA :=
  TEXTURES.foldl (fun img e => pasteAt img (tileFor e) (atlasPos e.index))
    (fun _ => (0, 0, 0, 0))

/-- Membership in the 16 x 16 region at a given atlas position. -/
def inRegion (pos q : Nat × Nat) : Prop :=
  pos.1 ≤ q.1 ∧ q.1 < pos.1 + TILE_SIZE ∧ pos.2 ≤ q.2 ∧ q.2 < pos.2 + TILE_SIZE

theorem pasteAt_in (img t : (Nat × Nat) → RGBA) (pos q : Nat × Nat)
    (hq : inRegion pos q) : pasteAt img t pos q = t (q.1 - pos.1, q.2 - pos.2) :=
  if_pos hq

theorem pasteAt_out (img t : (Nat × Nat) → RGBA) (pos q : Nat × Nat)
    (hq : ¬ inRegion pos q) : pasteAt img t pos q = img q :=
  if_neg hq

theorem foldl_paste_skip :
    ∀ (l : List TexEntry) (img : (Nat × Nat) → RGBA) (q : Nat × Nat),
      (∀ e ∈ l, ¬ inRegion (atlasPos e.index) q) →
      (l.foldl (fun img e => pasteAt img (tileFor e) (atlasPos e.index)) img) q = img q := by
  intro l
  induction l with
  | nil => intro img q _; rfl
  | cons e t ih =>
    intro img q hl
    rw [List.foldl_cons, ih _ _ (fun e' he' => hl e' (List.mem_cons_of_mem _ he'))]
    exact pasteAt_out _ _ _ _ (hl e (List.mem_cons_self _ _))

theorem atlasPos_disjoint (n m : Nat) (_hn : n ≤ 30) (hm : m ≤ 30) (hnm : n ≠ m)
    (q : Nat × Nat) :
    ¬ (inRegion (atlasPos n) q ∧ inRegion (atlasPos m) q) := by
  unfold inRegion atlasPos TILE_SIZE TILES_PER_ROW ATLAS_SIZE
  rintro ⟨⟨a1, a2, a3, a4⟩, ⟨b1, b2, b3, b4⟩⟩
  dsimp only at a1 a2 a3 a4 b1 b2 b3 b4
  omega

theorem TEXTURES_index : ∀ k : Nat, k < 31 → (TEXTURES.getD k default).index = k := by
  decide

/-- C5: the atlas layout: tile n sits at ((n % 16) * 16, 240 - n / 16 * 16);
regions of distinct indices are disjoint and in the 256 x 256 bounds, and
inside region n the atlas equals tile n. -/
theorem generate_textures_atlas (n m : Nat) (hn : n ≤ 30) (hm : m ≤ 30) :
    ATLAS_SIZE = 256 ∧
    TEXTURES.length = 31 ∧
    atlasPos n = ((n % 16) * 16, 240 - n / 16 * 16) ∧
    (atlasPos n).1 + 16 ≤ 256 ∧ (atlasPos n).2 + 16 ≤ 256 ∧
    (n ≠ m → ∀ q : Nat × Nat, ¬ (inRegion (atlasPos n) q ∧ inRegion (atlasPos m) q)) ∧
    (∀ dx dy : Nat, dx < 16 → dy < 16 →
      blockAtlas ((atlasPos n).1 + dx, (atlasPos n).2 + dy)
        = tileFor (TEXTURES.getD n default) (dx, dy)) := by
  have hb1 : (atlasPos n).1 + 16 ≤ 256 := by
    unfold atlasPos TILE_SIZE TILES_PER_ROW ATLAS_SIZE
    dsimp only
    omega
  have hb2 : (atlasPos n).2 + 16 ≤ 256 := by
    unfold atlasPos TILE_SIZE TILES_PER_ROW ATLAS_SIZE
    dsimp only
    omega
  refine ⟨rfl, by decide, rfl, hb1, hb2,
    fun hnm q => atlasPos_disjoint n m hn hm hnm q, ?_⟩
  intro dx dy hdx hdy
  have hlen : TEXTURES.length = 31 := by decide
  have hnl : n < TEXTURES.length := by omega
  have hsplit : TEXTURES = TEXTURES.take n
      ++ TEXTURES.getD n default :: TEXTURES.drop (n + 1) := by
    rw [List.getD_eq_getElem TEXTURES default hnl]
    rw [← List.drop_eq_getElem_cons hnl]
    exact (List.take_append_drop n TEXTURES).symm
  have hq : inRegion (atlasPos n) ((atlasPos n).1 + dx, (atlasPos n).2 + dy) := by
    unfold inRegion TILE_SIZE
    dsimp only
    omega
  show (TEXTURES.foldl (fun img e => pasteAt img (tileFor e) (atlasPos e.index))
    (fun _ => (0, 0, 0, 0))) ((atlasPos n).1 + dx, (atlasPos n).2 + dy)
      = tileFor (TEXTURES.getD n default) (dx, dy)
  conv_lhs => rw [hsplit]
  rw [List.foldl_append, List.foldl_cons]
  rw [foldl_paste_skip]
  · rw [TEXTURES_index n (by omega)]
    rw [pasteAt_in _ _ _ _ hq]
    have e1 : ((atlasPos n).1 + dx, (atlasPos n).2 + dy).1 - (atlasPos n).1 = dx := by
      dsimp only
      omega
    have e2 : ((atlasPos n).1 + dx, (atlasPos n).2 + dy).2 - (atlasPos n).2 = dy := by
      dsimp only
      omega
    rw [e1, e2]
  · intro e' he'
    obtain ⟨k, hk, hke⟩ := List.mem_iff_getElem.mp he'
    have hkl : n + 1 + k < TEXTURES.length := by
      rw [List.length_drop] at hk
      omega
    rw [List.getElem_drop] at hke
    have hidx : e'.index = n + 1 + k := by
      rw [← hke, ← List.getD_eq_getElem TEXTURES default hkl]
      exact TEXTURES_index (n + 1 + k) (by omega)
    rw [hidx]
    intro hcon
    exact atlasPos_disjoint n (n + 1 + k) hn (by rw [List.length_drop] at hk; omega)
      (by omega) _ ⟨hq, hcon⟩

/-- Witness for C5 at indices 0 and 1 and offset (2, 3). -/
theorem generate_textures_atlas_witness :
    (0 : Nat) ≤ 30 ∧
    blockAtlas ((atlasPos 0).1 + 2, (atlasPos 0).2 + 3)
      = tileFor (TEXTURES.getD 0 default) (2, 3) :=
  ⟨by decide, (generate_textures_atlas 0 1 (by decide) (by decide)).2.2.2.2.2.2
    2 3 (by decide) (by decide)⟩

/-! ### update_block_registry.py (claim C7) -/

/-- Python str.strip() default whitespace characters (ASCII). -/
def isPySpace (c : Char) : Bool :=
  c == ' ' || c == '\t' || c == '\n' || c == '\r' || c == '\x0b' || c == '\x0c'

/-- strip() on a character list: drop whitespace from both ends. -/
def pystripL (l : List Char) : List Char :=
  ((l.dropWhile isPySpace).reverse.dropWhile isPySpace).reverse

/-- Python line.strip(). -/
def pystrip (s : String) : String := String.mk (pystripL s.toList)

/-- The 7 GUIDs already referenced by SampleScene.unity. -/
def existing_guids : List String := [
  "bd31c31dfd0b4314691f16ea7b3fe355",
  "84f7b997588994941b26694bd273b8ab",
  "4de6099ccf668d241a3a91a599636089",
  "93e418a9880d5ad408f0f91355a37cd1",
  "cba1318f6db55f1408a4c1f0f8469889",
  "1fd60414ba05e0249889168eb881c194",
  "377ff86f72d4c7b44928c0b9dfc995ad"]

/-- The 18 new block GUIDs. -/
def new_block_guids : List String := [
  "eff441eceee9439f8613d1e04c109cae",
  "2aa2682e1cd347f8b3f9affc1a32dc25",
  "a701f2bca8524314b208b0eaffe9e1c4",
  "f39ec1c49cfb4542a0a885f5b5c0057b",
  "e67e1b5a0f6349c6945bdd58af67aad3",
  "eecf3916c73040eb8546768495f78fe5",
  "3ee3f8b22ec74ba1b5dea97c41ed81be",
  "98b7267a79f8422aa09ca13b42873f5e",
  "bfc180317d244c1ba08ab96c58509873",
  "78fd64fb53aa40049238a35329e1d7f5",
  "c2fd5fabea1f4a9496dc8c73febdee2d",
  "4a94192e85ca4d43833e986cf12ee765",
  "d6b2dd0856e34daa960ac73fd0622e1d",
  "e7f7515632e842268d3cfee73e0e07d4",
  "da7244822b9c494586136099424a76b0",
  "3fbd913a87cc46278e77dc942e14822a",
  "ed5724392cfb459c9935bf0478fa7c82",
  "76481855fa67425d92fcdaac1cf01e37"]

def all_guids : List String := existing_guids ++ new_block_guids

/-- One replacement line, from the f-string
`"  - {fileID: 11400000, guid: {guid}, type: 2}\n"` (braces written with
escapes here). -/
def defLine (g : String) : String :=
  "  - \x7bfileID: 11400000, guid: " ++ g ++ ", type: 2\x7d\n"

def defLines : List String := all_guids.map defLine

/-- The enumerate-and-break loop: index of the first line whose strip() is
"definitions:". -/
def findDefIdx : List String → Option Nat
  | [] => none
  | l :: rest =>
    if pystrip l == "definitions:" then some 0
    else (findDefIdx rest).map (· + 1)

/-- Model of update_block_registry: replace the 7 lines after the first
"definitions:" line with the 25 new reference lines
(`lines[i + 1 : i + 8] = [...]`); without a match the lines are written back
unchanged. -/
def update_block_registry (lines : List String) : List String :=
  match findDefIdx lines with
  | some i => lines.take (i + 1) ++ defLines ++ lines.drop (i + 8)
  | none => lines

theorem findDefIdx_lt : ∀ (lines : List String) (i : Nat),
    findDefIdx lines = some i → i < lines.length := by
  intro lines
  induction lines with
  | nil => intro i h; exact absurd h (by simp [findDefIdx])
  | cons l rest ih =>
    intro i h
    unfold findDefIdx at h
    split at h
    · have h' : 0 = i := by simpa using h
      simp only [List.length_cons]
      omega
    · cases hr : findDefIdx rest with
      | none => rw [hr] at h; exact absurd h (by simp)
      | some k =>
        rw [hr] at h
        have h' : k + 1 = i := by simpa using h
        have := ih k hr
        simp only [List.length_cons]
        omega

theorem findDefIdx_first : ∀ (lines : List String) (i : Nat),
    findDefIdx lines = some i →
    pystrip (lines.getD i "") = "definitions:" ∧
    ∀ k, k < i → pystrip (lines.getD k "") ≠ "definitions:" := by
  intro lines
  induction lines with
  | nil => intro i h; exact absurd h (by simp [findDefIdx])
  | cons l rest ih =>
    intro i h
    unfold findDefIdx at h
    split at h
    · rename_i hl
      have h' : 0 = i := by simpa using h
      subst h'
      refine ⟨by simpa using hl, ?_⟩
      intro k hk
      omega
    · rename_i hl
      cases hr : findDefIdx rest with
      | none => rw [hr] at h; exact absurd h (by simp)
      | some m =>
        rw [hr] at h
        have h' : m + 1 = i := by simpa using h
        subst h'
        obtain ⟨hm1, hm2⟩ := ih m hr
        refine ⟨by simpa using hm1, ?_⟩
        intro k hk
        cases k with
        | zero =>
          simpa using fun hc => hl (by simpa using hc)
        | succ k' =>
          simpa using hm2 k' (by omega)

theorem defLines_length : defLines.length = 25 := by
  unfold defLines
  rw [List.length_map]
  decide

/-- C7: update_block_registry replaces exactly the 7 lines after the first
"definitions:" line with the 25 reference lines (7 existing GUIDs then 18
new ones, in table order); every other line is written back unchanged. -/
theorem update_block_registry_spec (lines : List String) (i : Nat)
    (hfind : findDefIdx lines = some i) :
    all_guids = existing_guids ++ new_block_guids ∧
    existing_guids.length = 7 ∧
    new_block_guids.length = 18 ∧
    defLines.length = 25 ∧
    pystrip (lines.getD i "") = "definitions:" ∧
    (∀ k, k < i → pystrip (lines.getD k "") ≠ "definitions:") ∧
    update_block_registry lines
      = lines.take (i + 1) ++ defLines ++ lines.drop (i + 8) ∧
    (∀ k, k ≤ i → (update_block_registry lines)[k]? = lines[k]?) ∧
    (∀ j, j < 25 →
      (update_block_registry lines)[i + 1 + j]?
        = some (defLine (all_guids.getD j ""))) ∧
    (∀ k, i + 8 ≤ k → (update_block_registry lines)[k + 18]? = lines[k]?) := by
  have hil : i < lines.length := findDefIdx_lt lines i hfind
  have hre : update_block_registry lines
      = lines.take (i + 1) ++ defLines ++ lines.drop (i + 8) := by
    unfold update_block_registry
    rw [hfind]
  have hlt : (lines.take (i + 1)).length = i + 1 := by
    rw [List.length_take]
    omega
  have hlen2 : (lines.take (i + 1) ++ defLines).length = i + 26 := by
    rw [List.length_append, hlt, defLines_length]
  obtain ⟨hfi1, hfi2⟩ := findDefIdx_first lines i hfind
  have hglen : all_guids.length = 25 := by decide
  refine ⟨rfl, by decide, by decide, defLines_length, hfi1, hfi2, hre, ?_, ?_, ?_⟩
  · intro k hk
    rw [hre]
    rw [List.getElem?_append_left (by rw [hlen2]; omega)]
    rw [List.getElem?_append_left (by rw [hlt]; omega)]
    exact List.getElem?_take_of_lt (by omega)
  · intro j hj
    rw [hre]
    rw [List.getElem?_append_left (by rw [hlen2]; omega)]
    rw [List.getElem?_append_right (by rw [hlt]; omega)]
    have harith : i + 1 + j - (lines.take (i + 1)).length = j := by
      rw [hlt]; omega
    rw [harith]
    unfold defLines
    rw [List.getElem?_map]
    rw [List.getElem?_eq_getElem (by rw [hglen]; omega)]
    rw [List.getD_eq_getElem all_guids "" (by rw [hglen]; omega)]
    rfl
  · intro k hk
    rw [hre]
    rw [List.getElem?_append_right (by rw [hlen2]; omega)]
    have harith : k + 18 - (lines.take (i + 1) ++ defLines).length = k - i - 8 := by
      rw [hlen2]; omega
    rw [harith]
    rw [List.getElem?_drop]
    have : i + 8 + (k - i - 8) = k := by omega
    rw [this]

/-- Witness for C7 on a 10-line file with "definitions:" at index 1. -/
theorem update_block_registry_spec_witness :
    findDefIdx ["x\n", "definitions:\n", "a\n", "b\n", "c\n", "d\n", "e\n",
        "f\n", "g\n", "tail\n"] = some 1 ∧
    (update_block_registry ["x\n", "definitions:\n", "a\n", "b\n", "c\n", "d\n",
        "e\n", "f\n", "g\n", "tail\n"])[9 + 18]?
      = some "tail\n" := by
  refine ⟨by decide, ?_⟩
  have h := (update_block_registry_spec ["x\n", "definitions:\n", "a\n", "b\n",
    "c\n", "d\n", "e\n", "f\n", "g\n", "tail\n"] 1 (by decide)).2.2.2.2.2.2.2.2.2
    9 (by decide)
  rw [h]
  decide

/-! ### assign_textures.py: string splitting (claims C2, C3, C9) -/

/-- First-occurrence search: split `s` at the first occurrence of `sep`,
returning the part before it and the part after it. -/
def findSub (sep : List Char) : List Char → Option (List Char × List Char)
  | [] => if sep.isEmpty then some ([], []) else none
  | c :: rest =>
    if sep.isPrefixOf (c :: rest) then some ([], (c :: rest).drop sep.length)
    else
      match findSub sep rest with
      | some pr => some (c :: pr.1, pr.2)
      | none => none

theorem findSub_decomp (sep : List Char) :
    ∀ (s pre post : List Char), findSub sep s = some (pre, post) →
      s = pre ++ sep ++ post := by
  intro s
  induction s with
  | nil =>
    intro pre post h
    unfold findSub at h
    split at h
    · rename_i hsep
      injection h with h'
      injection h' with h1 h2
      subst h1
      subst h2
      simp only [List.isEmpty_iff] at hsep
      simp [hsep]
    · exact absurd h (by simp)
  | cons c rest ih =>
    intro pre post h
    unfold findSub at h
    split at h
    · rename_i hpre
      rw [List.isPrefixOf_iff_prefix] at hpre
      obtain ⟨t, ht⟩ := hpre
      injection h with h'
      injection h' with h1 h2
      subst h1
      subst h2
      rw [← ht, List.drop_left]
      simpa using ht.symm
    · rename_i hpre
      cases hr : findSub sep rest with
      | none => rw [hr] at h; exact absurd h (by simp)
      | some pr =>
        rw [hr] at h
        injection h with h'
        injection h' with h1 h2
        subst h1
        subst h2
        have := ih pr.1 pr.2 (by rw [hr])
        rw [this]
        simp

theorem findSub_minimal (sep : List Char) :
    ∀ (s pre post : List Char), findSub sep s = some (pre, post) →
      ∀ a b : List Char, s = a ++ sep ++ b → pre.length ≤ a.length := by
  intro s
  induction s with
  | nil =>
    intro pre post h a b he
    unfold findSub at h
    split at h
    · injection h with h'
      injection h' with h1 _
      subst h1
      simp
    · exact absurd h (by simp)
  | cons c rest ih =>
    intro pre post h a b he
    unfold findSub at h
    split at h
    · injection h with h'
      injection h' with h1 _
      subst h1
      simp
    · rename_i hpre
      cases hr : findSub sep rest with
      | none => rw [hr] at h; exact absurd h (by simp)
      | some pr =>
        rw [hr] at h
        injection h with h'
        injection h' with h1 h2
        subst h1
        cases a with
        | nil =>
          exfalso
          apply hpre
          rw [List.isPrefixOf_iff_prefix]
          simp only [List.nil_append] at he
          exact ⟨b, he.symm⟩
        | cons a0 a' =>
          have hc : c = a0 ∧ rest = a' ++ sep ++ b := by
            simpa using he
          have := ih pr.1 pr.2 (by rw [hr]) a' b hc.2
          simp only [List.length_cons]
          omega

theorem findSub_none_no_occurrence (sep : List Char) (hsep : sep ≠ []) :
    ∀ (s : List Char), findSub sep s = none →
      ¬ ∃ a b : List Char, s = a ++ sep ++ b := by
  intro s
  induction s with
  | nil =>
    intro _ hocc
    obtain ⟨a, b, he⟩ := hocc
    have : sep = [] := by
      cases a with
      | nil =>
        cases sep with
        | nil => rfl
        | cons x xs => simp at he
      | cons a0 a' => simp at he
    exact hsep this
  | cons c rest ih =>
    intro h hocc
    unfold findSub at h
    split at h
    · exact absurd h (by simp)
    · rename_i hpre
      cases hr : findSub sep rest with
      | some pr => rw [hr] at h; exact absurd h (by simp)
      | none =>
        obtain ⟨a, b, he⟩ := hocc
        cases a with
        | nil =>
          apply hpre
          rw [List.isPrefixOf_iff_prefix]
          simp only [List.nil_append] at he
          exact ⟨b, he.symm⟩
        | cons a0 a' =>
          apply ih hr
          refine ⟨a', b, ?_⟩
          simp only [List.cons_append] at he
          injection he with h1 h2

theorem findSub_post_length (sep : List Char) (hsep : sep ≠ []) (s pre post : List Char)
    (h : findSub sep s = some (pre, post)) : post.length < s.length := by
  have hd := findSub_decomp sep s pre post h
  rw [hd]
  simp only [List.length_append]
  cases sep with
  | nil => exact absurd rfl hsep
  | cons x xs => simp only [List.length_cons]; omega

theorem findSub_of_decomp (sep : List Char) (hsep : sep ≠ []) :
    ∀ (pre post : List Char),
      (∀ a b : List Char, pre ++ sep ++ post = a ++ sep ++ b → pre.length ≤ a.length) →
      findSub sep (pre ++ sep ++ post) = some (pre, post) := by
  intro pre
  induction pre with
  | nil =>
    intro post _
    cases hs : sep ++ post with
    | nil =>
      exfalso
      cases sep with
      | nil => exact hsep rfl
      | cons x xs => simp at hs
    | cons c rest =>
      show findSub sep ([] ++ sep ++ post) = some ([], post)
      simp only [List.nil_append]
      rw [hs]
      unfold findSub
      rw [if_pos (by rw [List.isPrefixOf_iff_prefix, ← hs]; exact List.prefix_append sep post)]
      rw [← hs, List.drop_left]
  | cons c pre' ih =>
    intro post hmin
    show findSub sep (c :: (pre' ++ sep ++ post)) = some (c :: pre', post)
    unfold findSub
    rw [if_neg ?hneg]
    case hneg =>
      intro hcon
      rw [List.isPrefixOf_iff_prefix] at hcon
      obtain ⟨t, ht⟩ := hcon
      have := hmin [] t (by simpa using ht.symm)
      simp at this
    rw [ih post ?hmin2]
    case hmin2 =>
      intro a b he
      have := hmin (c :: a) b (by simpa using he)
      simpa using this

/-- Python str.split(sep) for a nonempty separator: cut at each occurrence,
left to right. -/
def splitSeq (sep : List Char) (hsep : sep ≠ []) (s : List Char) : List (List Char) :=
  match h : findSub sep s with
  | none => [s]
  | some pr => pr.1 :: splitSeq sep hsep pr.2
termination_by s.length
decreasing_by exact findSub_post_length sep hsep s pr.1 pr.2 h

theorem splitSeq_of_none (sep : List Char) (hsep : sep ≠ []) (s : List Char)
    (h : findSub sep s = none) : splitSeq sep hsep s = [s] := by
  rw [splitSeq.eq_def, h]

theorem splitSeq_of_some (sep : List Char) (hsep : sep ≠ []) (s pre post : List Char)
    (h : findSub sep s = some (pre, post)) :
    splitSeq sep hsep s = pre :: splitSeq sep hsep post := by
  rw [splitSeq.eq_def, h]

/-- The separator "guid:". -/
def guidSep : List Char := ['g', 'u', 'i', 'd', ':']

theorem guidSep_ne : guidSep ≠ [] := by decide

/-- Python line iteration of a file, as the newline split of its content
(equivalent for the stripped-line predicates used here). -/
def pylines (content : String) : List (List Char) :=
  splitSeq ['\n'] (by decide) content.toList

/-- The loop `for line in f: if line.strip().startswith("guid:"): ...`:
the first matching line. -/
def firstGuidLine : List (List Char) → Option (List Char)
  | [] => none
  | l :: rest =>
    if guidSep.isPrefixOf (pystripL l) then some l else firstGuidLine rest

/-- The two uncaught exception kinds of assign_textures.py. -/
inductive PyExn where
  | fileNotFoundError (msg : String)
  | valueError (msg : String)
deriving DecidableEq

/-- A file system: path to content, none when the file does not exist. -/
abbrev FS := String → Option String

/-- Model of get_guid_from_meta: FileNotFoundError when the .meta file is
missing; otherwise the first line whose strip() starts with "guid:" yields
strip(split(strip(line), "guid:")[1]); ValueError when no line matches.
There is no recovery path: each case returns immediately. -/
def get_guid_from_meta (fs : FS) (texture_path : String) : Except PyExn String :=
  let meta_path := texture_path ++ ".meta"
  match fs meta_path with
  | none => .error (.fileNotFoundError ("Meta file not found: " ++ meta_path))
  | some content =>
    match firstGuidLine (pylines content) with
    | some line =>
      .ok (String.mk (pystripL
        ((splitSeq guidSep guidSep_ne (pystripL line)).getD 1 [])))
    | none => .error (.valueError ("No GUID found in " ++ meta_path))

theorem firstGuidLine_spec :
    ∀ (lines : List (List Char)) (line : List Char),
      firstGuidLine lines = some line →
      (∃ L1 L2, lines = L1 ++ line :: L2 ∧
        ∀ l ∈ L1, ¬ guidSep.isPrefixOf (pystripL l) = true) ∧
      guidSep.isPrefixOf (pystripL line) = true := by
  intro lines
  induction lines with
  | nil => intro line h; exact absurd h (by simp [firstGuidLine])
  | cons l rest ih =>
    intro line h
    unfold firstGuidLine at h
    split at h
    · rename_i hl
      injection h with h'
      subst h'
      exact ⟨⟨[], rest, rfl, by simp⟩, hl⟩
    · rename_i hl
      obtain ⟨⟨L1, L2, he, hno⟩, hline⟩ := ih line h
      refine ⟨⟨l :: L1, L2, by rw [he]; rfl, ?_⟩, hline⟩
      intro l' hl'
      rcases List.mem_cons.mp hl' with rfl | hl'
      · exact fun hc => hl hc
      · exact hno l' hl'

theorem firstGuidLine_none :
    ∀ (lines : List (List Char)), firstGuidLine lines = none ↔
      ∀ l ∈ lines, ¬ guidSep.isPrefixOf (pystripL l) = true := by
  intro lines
  induction lines with
  | nil => simp [firstGuidLine]
  | cons l rest ih =>
    unfold firstGuidLine
    split
    · rename_i hl
      constructor
      · intro hc
        simp at hc
      · intro hall
        exact absurd hl (hall l (List.mem_cons_self _ _))
    · rename_i hl
      rw [ih]
      constructor
      · intro hall l' hl'
        rcases List.mem_cons.mp hl' with rfl | hl'
        · exact hl
        · exact hall l' hl'
      · intro hall l' hl'
        exact hall l' (List.mem_cons_of_mem _ hl')

/-- The value computed from the first matching line: the stripped text
between the first "guid:" and the next occurrence of "guid:" (if any). -/
theorem split_guid_value (line : List Char)
    (hpre : guidSep.isPrefixOf (pystripL line) = true) :
    ∃ t r, pystripL line = guidSep ++ t ++ r ∧
      (¬ ∃ a b, t = a ++ guidSep ++ b) ∧
      (r = [] ∨ guidSep <+: r) ∧
      (splitSeq guidSep guidSep_ne (pystripL line)).getD 1 [] = t := by
  rw [List.isPrefixOf_iff_prefix] at hpre
  obtain ⟨rest, hrest⟩ := hpre
  have hfs1 : findSub guidSep (pystripL line) = some ([], rest) := by
    rw [← hrest]
    have := findSub_of_decomp guidSep guidSep_ne [] rest (by intro a b _; simp)
    simpa using this
  rw [splitSeq_of_some guidSep guidSep_ne _ [] rest hfs1]
  cases h2 : findSub guidSep rest with
  | none =>
    refine ⟨rest, [], ?_, ?_, Or.inl rfl, ?_⟩
    · rw [← hrest]; simp
    · exact findSub_none_no_occurrence guidSep guidSep_ne rest h2
    · rw [splitSeq_of_none guidSep guidSep_ne rest h2]
      rfl
  | some pr =>
    obtain ⟨p2, q2⟩ := pr
    have hd := findSub_decomp guidSep rest p2 q2 h2
    refine ⟨p2, guidSep ++ q2, ?_, ?_, Or.inr (List.prefix_append _ _), ?_⟩
    · rw [← hrest, hd]; simp
    · rintro ⟨a, b, hab⟩
      have := findSub_minimal guidSep rest p2 q2 h2 a (b ++ guidSep ++ q2)
        (by rw [hd, hab]; simp)
      rw [hab] at this
      simp only [List.length_append] at this
      have hg5 : guidSep.length = 5 := by decide
      omega
    · rw [splitSeq_of_some guidSep guidSep_ne rest p2 q2 h2]
      rfl

/-- C3 (amended): FileNotFoundError iff the sidecar .meta file is missing;
ValueError iff it exists and no line strip-starts with "guid:"; otherwise
the result is ok with the stripped text between the first "guid:" of the
first matching line and the next occurrence of "guid:" on that line (the
stripped text after "guid:" when it occurs only once). No retry or
recovery: every case returns one value or one uncaught exception. -/
theorem get_guid_from_meta_spec (fs : FS) (path : String) :
    (fs (path ++ ".meta") = none ↔
      get_guid_from_meta fs path
        = .error (.fileNotFoundError ("Meta file not found: " ++ (path ++ ".meta")))) ∧
    (∀ content, fs (path ++ ".meta") = some content →
      ((get_guid_from_meta fs path
          = .error (.valueError ("No GUID found in " ++ (path ++ ".meta")))) ↔
        ∀ l ∈ pylines content, ¬ guidSep.isPrefixOf (pystripL l) = true) ∧
      (∀ line, firstGuidLine (pylines content) = some line →
        (∃ L1 L2, pylines content = L1 ++ line :: L2 ∧
          ∀ l ∈ L1, ¬ guidSep.isPrefixOf (pystripL l) = true) ∧
        ∃ t r, pystripL line = guidSep ++ t ++ r ∧
          (¬ ∃ a b, t = a ++ guidSep ++ b) ∧
          (r = [] ∨ guidSep <+: r) ∧
          get_guid_from_meta fs path = .ok (String.mk (pystripL t)))) := by
  constructor
  · cases hfs : fs (path ++ ".meta") with
    | none => simp [get_guid_from_meta, hfs]
    | some content =>
      simp only [get_guid_from_meta, hfs]
      constructor
      · intro hc
        simp at hc
      · intro hres
        exfalso
        cases hline : firstGuidLine (pylines content) with
        | some l => rw [hline] at hres; simp at hres
        | none => rw [hline] at hres; simp at hres
  · intro content hfs
    constructor
    · rw [← firstGuidLine_none]
      simp only [get_guid_from_meta, hfs]
      cases hline : firstGuidLine (pylines content) with
      | some l => simp [hline]
      | none => simp [hline]
    · intro line hline
      refine ⟨(firstGuidLine_spec _ line hline).1, ?_⟩
      obtain ⟨t, r, hdec, hno, hr, hval⟩ :=
        split_guid_value line (firstGuidLine_spec _ line hline).2
      refine ⟨t, r, hdec, hno, hr, ?_⟩
      simp only [get_guid_from_meta, hfs, hline]
      rw [hval]

/-- A one-file file system exhibiting a meta line in which "guid:" occurs
twice. -/
def cexFS : FS := fun p => if p = "t.png.meta" then some "guid: aa guid: bb" else none

/-- Counterexample to C3 as stated: on the line "guid: aa guid: bb" the code
returns "aa" (split takes the text before the next "guid:"), while the
stripped text after "guid:" is "aa guid: bb". -/
theorem get_guid_from_meta_counterexample :
    get_guid_from_meta cexFS "t.png" = .ok "aa" ∧
    String.mk (pystripL ((pystripL "guid: aa guid: bb".toList).drop guidSep.length))
      = "aa guid: bb" ∧
    ("aa" : String) ≠ "aa guid: bb" := by
  refine ⟨?_, by decide, by decide⟩
  have hpy : pylines "guid: aa guid: bb" = ["guid: aa guid: bb".toList] := by
    unfold pylines
    apply splitSeq_of_none
    decide
  have h1 : firstGuidLine (pylines "guid: aa guid: bb")
      = some "guid: aa guid: bb".toList := by
    rw [hpy]
    decide
  have hf1 : findSub guidSep (pystripL "guid: aa guid: bb".toList)
      = some ([], " aa guid: bb".toList) := by decide
  have hf2 : findSub guidSep " aa guid: bb".toList
      = some (" aa ".toList, " bb".toList) := by decide
  have hsplit : (splitSeq guidSep guidSep_ne
      (pystripL "guid: aa guid: bb".toList)).getD 1 [] = " aa ".toList := by
    rw [splitSeq_of_some guidSep guidSep_ne _ [] (" aa guid: bb".toList) hf1]
    rw [splitSeq_of_some guidSep guidSep_ne _ (" aa ".toList) (" bb".toList) hf2]
    rfl
  have hfs : cexFS ("t.png" ++ ".meta") = some "guid: aa guid: bb" := by decide
  simp only [get_guid_from_meta, hfs, h1]
  rw [hsplit]
  exact congrArg Except.ok (by decide)

/-- Witness for the amended C3 theorem: missing file gives the uncaught
FileNotFoundError. -/
theorem get_guid_from_meta_spec_witness :
    get_guid_from_meta (fun _ => none) "p"
      = .error (.fileNotFoundError ("Meta file not found: " ++ ("p" ++ ".meta"))) :=
  ((get_guid_from_meta_spec (fun _ => none) "p").1).mp rfl

/-! ### assign_textures.py: update_asset (claims C2, C9) -/

/-- The BLOCK_TILE_MAP table: block name to (top, side, bottom) tile index. -/
def BLOCK_TILE_MAP : List (String × Nat × Nat × Nat) := [
  ("Block_Air", 0, 0, 0),
  ("Block_Grass", 1, 26, 2),
  ("Block_Dirt", 2, 2, 2),
  ("Block_Stone", 3, 3, 3),
  ("Block_Wood", 27, 4, 27),
  ("Block_Leaves", 5, 5, 5),
  ("Block_Sand", 6, 6, 6),
  ("Block_Water", 7, 7, 7),
  ("Block_Glass", 8, 8, 8),
  ("Block_Cobblestone", 9, 9, 9),
  ("Block_Planks", 10, 10, 10),
  ("Block_Brick", 11, 11, 11),
  ("Block_Gravel", 12, 12, 12),
  ("Block_Iron", 13, 13, 13),
  ("Block_Gold", 14, 14, 14),
  ("Block_Diamond", 15, 15, 15),
  ("Block_Coal", 16, 16, 16),
  ("Block_Obsidian", 17, 17, 17),
  ("Block_Snow", 18, 30, 2),
  ("Block_Ice", 19, 19, 19),
  ("Block_Clay", 20, 20, 20),
  ("Block_Sandstone", 21, 28, 29),
  ("Block_Wool", 22, 22, 22),
  ("Block_Bedrock", 23, 23, 23),
  ("Block_Torch", 24, 24, 24),
  ("Block_Flower", 25, 25, 25)]

/-- Python truthiness of an optional string: None and "" are falsy. -/
def pyTruthy : Option String → Bool
  | none => false
  | some s => !(s == "")

/-- make_tex_ref: the Unity texture reference text. -/
def make_tex_ref (guid : String) : String :=
  "\x7bfileID: 2800000, guid: " ++ guid ++ ", type: 3\x7d"

/-- The literal part of the regex `(field)\{fileID: [^}]*\}` up to the
character class: everything a match must start with. -/
def texPatLit (field : String) : List Char := (field ++ "\x7bfileID: ").toList

theorem texPatLit_ne (field : String) : texPatLit field ≠ [] := by
  unfold texPatLit
  show (field ++ "\x7bfileID: ").data ≠ []
  rw [String.data_append]
  intro h
  have := congrArg List.length h
  simp at this

theorem closeBrace_ne : (['\x7d'] : List Char) ≠ [] := by decide

/-- Model of `re.sub(r"(field)\{fileID: [^}]*\}", field + replacement, s)`:
find the next occurrence of `field ++ "{fileID: "`; a match extends to the
first following close brace ([^}]* is brace-free); emit the replacement and
continue after the match.  If no close brace follows the first occurrence,
no occurrence can match and the text is unchanged. -/
def reSub (lit : List Char) (hlit : lit ≠ []) (rep : List Char) (s : List Char) :
    List Char :=
  match h : findSub lit s with
  | none => s
  | some pr =>
    match h2 : findSub ['\x7d'] pr.2 with
    | none => s
    | some pr2 => pr.1 ++ rep ++ reSub lit hlit rep pr2.2
termination_by s.length
decreasing_by
  exact lt_trans (findSub_post_length ['\x7d'] closeBrace_ne pr.2 pr2.1 pr2.2 h2)
    (findSub_post_length lit hlit s pr.1 pr.2 h)

/-- One texture-field substitution of update_asset. -/
def subTexRef (field guid : String) (s : List Char) : List Char :=
  reSub (texPatLit field) (texPatLit_ne field) ((field ++ make_tex_ref guid).toList) s

/-- The three substitutions applied by update_asset, in source order. -/
def subAllTex (gt gs gb : String) (s : List Char) : List Char :=
  subTexRef "bottomTexture: " gb (subTexRef "sideTexture: " gs
    (subTexRef "topTexture: " gt s))

/-- Model of update_asset.  Returns the flag, the resulting file system and
the printed messages; reading a missing asset file raises. -/
def update_asset (fs : FS) (asset_path block_name : String)
    (guid_map : Nat → Option String) : Except PyExn (Bool × FS × List String) :=
  match BLOCK_TILE_MAP.lookup block_name with
  | none => .ok (false, fs, ["  SKIP: " ++ block_name ++ " not in tile map"])
  | some (top_idx, side_idx, bottom_idx) =>
    if block_name = "Block_Air" then
      .ok (false, fs, ["  SKIP: " ++ block_name ++ " (Air, no textures)"])
    else
      if pyTruthy (guid_map top_idx) && pyTruthy (guid_map side_idx)
          && pyTruthy (guid_map bottom_idx) then
        match fs asset_path with
        | none => .error (.fileNotFoundError asset_path)
        | some content =>
          let content' := subAllTex ((guid_map top_idx).getD "")
            ((guid_map side_idx).getD "") ((guid_map bottom_idx).getD "")
            content.toList
          .ok (true,
            fun p => if p = asset_path then some (String.mk content') else fs p, [])
      else
        .ok (false, fs, ["  ERROR: Missing GUID for " ++ block_name ++ " (top="
          ++ toString top_idx ++ ", side=" ++ toString side_idx
          ++ ", bottom=" ++ toString bottom_idx ++ ")"])

/-- C2: a missing tile map entry, the Block_Air special case, or a missing
GUID makes update_asset print one skip/error message, return False, and
leave the file system untouched. -/
theorem update_asset_skip_paths (fs : FS) (path name : String)
    (gm : Nat → Option String) :
    (BLOCK_TILE_MAP.lookup name = none →
      update_asset fs path name gm
        = .ok (false, fs, ["  SKIP: " ++ name ++ " not in tile map"])) ∧
    (name = "Block_Air" →
      update_asset fs path name gm
        = .ok (false, fs, ["  SKIP: " ++ name ++ " (Air, no textures)"])) ∧
    (∀ t s b : Nat, BLOCK_TILE_MAP.lookup name = some (t, s, b) →
      name ≠ "Block_Air" → (gm t = none ∨ gm s = none ∨ gm b = none) →
      update_asset fs path name gm
        = .ok (false, fs, ["  ERROR: Missing GUID for " ++ name ++ " (top="
            ++ toString t ++ ", side=" ++ toString s ++ ", bottom="
            ++ toString b ++ ")"])) := by
  refine ⟨?_, ?_, ?_⟩
  · intro h
    unfold update_asset
    rw [h]
  · intro h
    subst h
    unfold update_asset
    rw [show BLOCK_TILE_MAP.lookup "Block_Air" = some (0, 0, 0) from by decide]
    dsimp only
    rw [if_pos rfl]
  · intro t s b hl hair hmiss
    unfold update_asset
    rw [hl]
    dsimp only
    rw [if_neg hair]
    have hfalse : (pyTruthy (gm t) && pyTruthy (gm s) && pyTruthy (gm b)) = false := by
      rcases hmiss with h | h | h <;> rw [h] <;> simp [pyTruthy]
    rw [hfalse]
    rfl

/-- Witness for C2: a block present in the map with an empty GUID map. -/
theorem update_asset_skip_paths_witness :
    update_asset (fun _ => none) "p" "Block_Grass" (fun _ => none)
      = .ok (false, fun _ => none,
          ["  ERROR: Missing GUID for Block_Grass (top=1, side=26, bottom=2)"]) := by
  have h := (update_asset_skip_paths (fun _ => none) "p" "Block_Grass"
    (fun _ => none)).2.2 1 26 2 (by decide) (by decide) (Or.inl rfl)
  rw [h]
  rfl

/-! ### generate_block_assets.py (claim C6) -/

/-- One record of the hardcoded blocks table.  Numeric fields keep their
Python str() rendering where they are floats (e.g. 0.3 -> "0.3"); integer
fields are Nat and rendered with toString, which agrees with str(). -/
structure BlockRec where
  name : String
  id : Nat
  solid : Nat
  transparent : Nat
  top : Nat
  side : Nat
  bottom : Nat
  emission : Nat
  hardness : String
  tool : Nat
deriving DecidableEq

def blocks : List BlockRec := [
  ⟨"Water", 7, 0, 1, 7, 7, 7, 0, "-1", 0⟩,
  ⟨"Glass", 8, 1, 1, 8, 8, 8, 0, "0.3", 0⟩,
  ⟨"Cobblestone", 9, 1, 0, 9, 9, 9, 0, "2", 1⟩,
  ⟨"Planks", 10, 1, 0, 10, 10, 10, 0, "2", 2⟩,
  ⟨"Brick", 11, 1, 0, 11, 11, 11, 0, "2", 1⟩,
  ⟨"Gravel", 12, 1, 0, 12, 12, 12, 0, "0.6", 3⟩,
  ⟨"Iron", 13, 1, 0, 13, 13, 13, 0, "3", 1⟩,
  ⟨"Gold", 14, 1, 0, 14, 14, 14, 0, "3", 1⟩,
  ⟨"Diamond", 15, 1, 0, 15, 15, 15, 0, "3", 1⟩,
  ⟨"Coal", 16, 1, 0, 16, 16, 16, 0, "3", 1⟩,
  ⟨"Obsidian", 17, 1, 0, 17, 17, 17, 0, "50", 1⟩,
  ⟨"Snow", 18, 1, 0, 18, 30, 2, 0, "0.2", 3⟩,
  ⟨"Ice", 19, 1, 1, 19, 19, 19, 0, "0.5", 1⟩,
  ⟨"Clay", 20, 1, 0, 20, 20, 20, 0, "0.6", 3⟩,
  ⟨"Sandstone", 21, 1, 0, 21, 28, 29, 0, "0.8", 1⟩,
  ⟨"Wool", 22, 1, 0, 22, 22, 22, 0, "0.8", 4⟩,
  ⟨"Bedrock", 23, 1, 0, 23, 23, 23, 0, "-1", 0⟩,
  ⟨"Flower", 25, 0, 1, 25, 25, 25, 0, "0", 0⟩]

def guids : List String := [
  "eff441eceee9439f8613d1e04c109cae",
  "2aa2682e1cd347f8b3f9affc1a32dc25",
  "a701f2bca8524314b208b0eaffe9e1c4",
  "f39ec1c49cfb4542a0a885f5b5c0057b",
  "e67e1b5a0f6349c6945bdd58af67aad3",
  "eecf3916c73040eb8546768495f78fe5",
  "3ee3f8b22ec74ba1b5dea97c41ed81be",
  "98b7267a79f8422aa09ca13b42873f5e",
  "bfc180317d244c1ba08ab96c58509873",
  "78fd64fb53aa40049238a35329e1d7f5",
  "c2fd5fabea1f4a9496dc8c73febdee2d",
  "4a94192e85ca4d43833e986cf12ee765",
  "d6b2dd0856e34daa960ac73fd0622e1d",
  "e7f7515632e842268d3cfee73e0e07d4",
  "da7244822b9c494586136099424a76b0",
  "3fbd913a87cc46278e77dc942e14822a",
  "ed5724392cfb459c9935bf0478fa7c82",
  "76481855fa67425d92fcdaac1cf01e37"]

/-- base_template of generate_block_assets.py, braces written as escapes:
note the SINGLE braces around the four fileID: 0 header references and the
DOUBLE (escaped) braces around m_Script and the three texture references. -/
def base_template : String :=
  "%YAML 1.1\n%TAG !u! tag:unity3d.com,2011:\n--- !u!114 &11400000\nMonoBehaviour:\n  m_ObjectHideFlags: 0\n  m_CorrespondingSourceObject: \x7bfileID: 0\x7d\n  m_PrefabInstance: \x7bfileID: 0\x7d\n  m_PrefabAsset: \x7bfileID: 0\x7d\n  m_GameObject: \x7bfileID: 0\x7d\n  m_Enabled: 1\n  m_EditorHideFlags: 0\n  m_Script: \x7b\x7bfileID: 11500000, guid: 0fed08878a38d04459f1f2881b12ea1e, type: 3\x7d\x7d\n  m_Name: Block_\x7bname\x7d\n  m_EditorClassIdentifier: \n  blockId: \x7bid\x7d\n  blockName: \x7bname\x7d\n  isSolid: \x7bsolid\x7d\n  isTransparent: \x7btransparent\x7d\n  topTileIndex: \x7btop\x7d\n  bottomTileIndex: \x7bbottom\x7d\n  sideTileIndex: \x7bside\x7d\n  topTexture: \x7b\x7bfileID: 0\x7d\x7d\n  sideTexture: \x7b\x7bfileID: 0\x7d\x7d\n  bottomTexture: \x7b\x7bfileID: 0\x7d\x7d\n  lightEmission: \x7bemission\x7d\n  hardness: \x7bhardness\x7d\n  preferredToolType: \x7btool\x7d\n"

def base_meta_template : String :=
  "fileFormatVersion: 2\nguid: \x7bguid\x7d\nNativeFormatImporter:\n  externalObjects: \x7b\x7b\x7d\x7d\n  mainObjectFileID: 11400000\n  userData: \n  assetBundleName: \n  assetBundleVariant: "

/-- Python str.format(**kwargs): literal text is copied, doubled braces
become single braces, and a single open brace starts a replacement field
whose name (up to ':' or '!') is looked up; an unknown name raises
KeyError(name), modelled as an error value.  The fuel argument only bounds
the recursion; one unit is spent per emitted chunk, so length + 1 units can
never run out. -/
def pyFormatAux (subs : List (String × String)) :
    Nat → List Char → Except String (List Char)
  | 0, _ => .error ""
  | fuel + 1, l =>
    match l with
    | [] => .ok []
    | '\x7b' :: '\x7b' :: rest =>
      (pyFormatAux subs fuel rest).map (fun r => '\x7b' :: r)
    | '\x7d' :: '\x7d' :: rest =>
      (pyFormatAux subs fuel rest).map (fun r => '\x7d' :: r)
    | '\x7b' :: rest =>
      let fieldName := (rest.takeWhile (fun c => c != '\x7d')).takeWhile
        (fun c => c != ':' && c != '!')
      match subs.find? (fun kv => kv.1.toList == fieldName) with
      | some kv =>
        (pyFormatAux subs fuel ((rest.dropWhile (fun c => c != '\x7d')).drop 1)).map
          (fun r => kv.2.toList ++ r)
      | none => .error (String.mk fieldName)
    | c :: rest => (pyFormatAux subs fuel rest).map (fun r => c :: r)

def pyFormat (subs : List (String × String)) (template : String) :
    Except String String :=
  (pyFormatAux subs (template.toList.length + 1) template.toList).map String.mk

/-- The keyword arguments of base_template.format(**block). -/
def blockSubs (b : BlockRec) : List (String × String) := [
  ("name", b.name), ("id", toString b.id), ("solid", toString b.solid),
  ("transparent", toString b.transparent), ("top", toString b.top),
  ("side", toString b.side), ("bottom", toString b.bottom),
  ("emission", toString b.emission), ("hardness", b.hardness),
  ("tool", toString b.tool)]

deriving instance DecidableEq for Except

set_option maxRecDepth 100000 in
/-- C6 as a code bug: for every block of the table,
base_template.format(**block) raises KeyError('fileID') because the four
header references `{fileID: 0}` are not brace-escaped, so no asset file
content is ever produced; the meta template, by contrast, formats cleanly.
The first failing write is the first zip pair (block "Water"). -/
theorem generate_block_assets_keyerror :
    blocks.length = 18 ∧ guids.length = 18 ∧
    (blocks.getD 0 ⟨"", 0, 0, 0, 0, 0, 0, 0, "", 0⟩).name = "Water" ∧
    (∀ b ∈ blocks, pyFormat (blockSubs b) base_template = .error "fileID") ∧
    pyFormat [("guid", "eff441eceee9439f8613d1e04c109cae")] base_meta_template
      = .ok "fileFormatVersion: 2\nguid: eff441eceee9439f8613d1e04c109cae\nNativeFormatImporter:\n  externalObjects: \x7b\x7d\n  mainObjectFileID: 11400000\n  userData: \n  assetBundleName: \n  assetBundleVariant: " := by
  refine ⟨by decide, by decide, by decide, by decide, by decide⟩

/-! ### Occurrence reasoning for the re.sub substitutions (claim C9) -/

/-- `pat` occurs in `s` starting at position `q` (and fits). -/
def occAt (pat s : List Char) (q : Nat) : Prop :=
  q + pat.length ≤ s.length ∧ pat <+: s.drop q

theorem drop_append_len (A X : List Char) (q : Nat) :
    (A ++ X).drop (A.length + q) = X.drop q := by
  rw [← List.drop_drop, List.drop_left]

theorem drop_two (A B R : List Char) :
    (A ++ B ++ R).drop (A.length + B.length) = R := by
  rw [show A.length + B.length = (A ++ B).length by simp, List.drop_left]

theorem getElem?_drop_add (s : List Char) (i j : Nat) :
    (s.drop i)[j]? = s[i + j]? := by
  rw [List.getElem?_drop]

theorem getElem?_at_append (A : List Char) (x : Char) (v : List Char) :
    (A ++ x :: v)[A.length]? = some x := by
  rw [List.getElem?_append_right (Nat.le_refl _)]
  simp

theorem occAt_get (pat s : List Char) (q : Nat) (h : occAt pat s q) :
    ∀ k : Nat, k < pat.length → s[q + k]? = pat[k]? := by
  intro k hk
  obtain ⟨b, hb⟩ := h.2
  rw [← getElem?_drop_add, ← hb, List.getElem?_append, if_pos hk]

theorem occAt_of_decomp (pat a b : List Char) :
    occAt pat (a ++ pat ++ b) a.length := by
  constructor
  · simp only [List.length_append]
    omega
  · rw [List.append_assoc, List.drop_left]
    exact List.prefix_append pat b

theorem occAt_decomp (pat s : List Char) (q : Nat) (h : occAt pat s q) :
    s = s.take q ++ pat ++ s.drop (q + pat.length) := by
  obtain ⟨b, hb⟩ := h.2
  have hbval : b = s.drop (q + pat.length) := by
    have h1 : (s.drop q).drop pat.length = b := by rw [← hb, List.drop_left]
    rw [← h1, List.drop_drop]
  rw [← hbval, List.append_assoc, hb, List.take_append_drop]

theorem occAt_append_right (pat A X : List Char) (q : Nat) :
    occAt pat (A ++ X) (A.length + q) ↔ occAt pat X q := by
  unfold occAt
  rw [drop_append_len]
  simp only [List.length_append]
  constructor
  · rintro ⟨h1, h2⟩
    exact ⟨by omega, h2⟩
  · rintro ⟨h1, h2⟩
    exact ⟨by omega, h2⟩

theorem occAt_restrict (pat P s : List Char) (q : Nat)
    (hP : P <+: s) (h : occAt pat s q) (hq : q + pat.length ≤ P.length) :
    occAt pat P q := by
  obtain ⟨t, ht⟩ := hP
  refine ⟨hq, ?_⟩
  have hdrop : s.drop q = P.drop q ++ t := by
    rw [← ht, List.drop_append_eq_append_drop,
      show q - P.length = 0 by omega, List.drop_zero]
  have h2 := h.2
  rw [hdrop] at h2
  refine List.prefix_of_prefix_length_le h2 (List.prefix_append _ _) ?_
  rw [List.length_drop]
  omega

theorem occAt_extend (pat P s : List Char) (q : Nat)
    (hP : P <+: s) (h : occAt pat P q) : occAt pat s q := by
  obtain ⟨t, ht⟩ := hP
  have hq : q + pat.length ≤ P.length := h.1
  refine ⟨le_trans h.1 (by rw [← ht]; simp), ?_⟩
  have hdrop : s.drop q = P.drop q ++ t := by
    rw [← ht, List.drop_append_eq_append_drop,
      show q - P.length = 0 by omega, List.drop_zero]
  rw [hdrop]
  exact h.2.trans (List.prefix_append _ _)

theorem findSub_some_occAt (sep s pre post : List Char)
    (h : findSub sep s = some (pre, post)) : occAt sep s pre.length := by
  have hd := findSub_decomp sep s pre post h
  rw [hd]
  exact occAt_of_decomp sep pre post

theorem findSub_some_not_occAt (sep s pre post : List Char)
    (h : findSub sep s = some (pre, post)) :
    ∀ q : Nat, q < pre.length → ¬ occAt sep s q := by
  intro q hq hocc
  have hd := occAt_decomp sep s q hocc
  have hlen : (s.take q).length = q := by
    rw [List.length_take]
    have := hocc.1
    omega
  have := findSub_minimal sep s pre post h (s.take q) (s.drop (q + sep.length)) hd
  omega

theorem findSub_none_not_occAt (sep : List Char) (hsep : sep ≠ []) (s : List Char)
    (h : findSub sep s = none) : ∀ q : Nat, ¬ occAt sep s q := by
  intro q hocc
  exact findSub_none_no_occurrence sep hsep s h
    ⟨s.take q, s.drop (q + sep.length), occAt_decomp sep s q hocc⟩

theorem findSub_nil (sep : List Char) (hsep : sep ≠ []) :
    findSub sep [] = none := by
  unfold findSub
  rw [if_neg]
  simpa [List.isEmpty_iff] using hsep

/-- The first close brace of `body ++ '}' :: w` for brace-free `body`. -/
theorem findSub_first_close (body w : List Char) (hb : '\x7d' ∉ body) :
    findSub ['\x7d'] (body ++ '\x7d' :: w) = some (body, w) := by
  have hshape : body ++ '\x7d' :: w = body ++ ['\x7d'] ++ w := by simp
  rw [hshape]
  apply findSub_of_decomp ['\x7d'] closeBrace_ne
  intro a b he
  by_contra hlt
  push_neg at hlt
  have hp1 : a <+: body ++ ['\x7d'] ++ w := by
    rw [he, List.append_assoc]
    exact ⟨['\x7d'] ++ b, rfl⟩
  have hp2 : body <+: body ++ ['\x7d'] ++ w := by
    rw [List.append_assoc]
    exact ⟨['\x7d'] ++ w, rfl⟩
  have hpa : a <+: body := List.prefix_of_prefix_length_le hp1 hp2 (le_of_lt hlt)
  obtain ⟨t, ht⟩ := hpa
  have htne : t ≠ [] := by
    intro hnil
    rw [hnil, List.append_nil] at ht
    rw [ht] at hlt
    omega
  obtain ⟨t0, t', ht0⟩ : ∃ t0 t', t = t0 :: t' := by
    cases t with
    | nil => exact absurd rfl htne
    | cons t0 t' => exact ⟨t0, t', rfl⟩
  have he2 : a ++ (t ++ '\x7d' :: w) = a ++ '\x7d' :: b := by
    rw [← List.append_assoc, ht]
    simpa using he
  have he3 : t ++ '\x7d' :: w = '\x7d' :: b := List.append_cancel_left he2
  have he4 : t0 :: (t' ++ '\x7d' :: w) = '\x7d' :: b := by
    rw [ht0] at he3
    simpa using he3
  have he5 : t0 = '\x7d' ∧ t' ++ '\x7d' :: w = b := by simpa using he4
  have ht0brace : t0 = '\x7d' := he5.1
  apply hb
  rw [← ht, ht0, ht0brace]
  simp

theorem reSub_of_none (lit : List Char) (hlit : lit ≠ []) (rep s : List Char)
    (h : findSub lit s = none) : reSub lit hlit rep s = s := by
  rw [reSub.eq_def, h]

theorem reSub_of_noclose (lit : List Char) (hlit : lit ≠ []) (rep s pre rest : List Char)
    (h : findSub lit s = some (pre, rest))
    (h2 : findSub ['\x7d'] rest = none) : reSub lit hlit rep s = s := by
  rw [reSub.eq_def, h]
  dsimp only
  rw [h2]

theorem reSub_of_match (lit : List Char) (hlit : lit ≠ []) (rep s pre rest mid post : List Char)
    (h : findSub lit s = some (pre, rest))
    (h2 : findSub ['\x7d'] rest = some (mid, post)) :
    reSub lit hlit rep s = pre ++ rep ++ reSub lit hlit rep post := by
  rw [reSub.eq_def, h]
  dsimp only
  rw [h2]

/-- Every occurrence of `lit` that is followed by a close brace somewhere is
the head of a complete substituted reference `lit ++ body ++ '}'`.  This is
the invariant that makes re.sub with pattern `lit[^}]*}` leave a text
unchanged. -/
def goodF (lit body z : List Char) : Prop :=
  ∀ q : Nat, occAt lit z q → '\x7d' ∈ z.drop (q + lit.length) →
    (body ++ ['\x7d']) <+: z.drop (q + lit.length)

theorem goodF_append_right (lit body A t : List Char)
    (h : goodF lit body (A ++ t)) : goodF lit body t := by
  intro q hq hmem
  have h1 : occAt lit (A ++ t) (A.length + q) :=
    (occAt_append_right lit A t q).mpr hq
  have e : (A ++ t).drop (A.length + q + lit.length) = t.drop (q + lit.length) := by
    rw [Nat.add_assoc]
    exact drop_append_len A t (q + lit.length)
  have h2 := h (A.length + q) h1 (by rw [e]; exact hmem)
  rwa [e] at h2

theorem mem_drop_of_le (c : Char) (s : List Char) (m m' : Nat) (hm : m ≤ m')
    (h : c ∈ s.drop m') : c ∈ s.drop m := by
  have e : (s.drop m).drop (m' - m) = s.drop m' := by
    rw [List.drop_drop, show m + (m' - m) = m' by omega]
  rw [← e] at h
  exact List.mem_of_mem_drop h

theorem good_fixed_aux (lit : List Char) (hlit : lit ≠ []) (body : List Char)
    (hb : '\x7d' ∉ body) :
    ∀ n : Nat, ∀ z : List Char, z.length = n → goodF lit body z →
      reSub lit hlit (lit ++ body ++ ['\x7d']) z = z := by
  intro n
  induction n using Nat.strong_induction_on with
  | _ n ih =>
    intro z hzn hg
    cases hf : findSub lit z with
    | none => exact reSub_of_none lit hlit _ z hf
    | some pr =>
      obtain ⟨pre, rest⟩ := pr
      cases hf2 : findSub ['\x7d'] rest with
      | none => exact reSub_of_noclose lit hlit _ z pre rest hf hf2
      | some pr2 =>
        obtain ⟨mid, post⟩ := pr2
        have hdz : z = pre ++ lit ++ rest := findSub_decomp lit z pre rest hf
        have hdrest : rest = mid ++ ['\x7d'] ++ post :=
          findSub_decomp ['\x7d'] rest mid post hf2
        have hrest_eq : z.drop (pre.length + lit.length) = rest := by
          rw [hdz]
          exact drop_two pre lit rest
        have hocc : occAt lit z pre.length := findSub_some_occAt lit z pre rest hf
        have hclose : '\x7d' ∈ z.drop (pre.length + lit.length) := by
          rw [hrest_eq, hdrest]
          simp
        have hcont := hg pre.length hocc hclose
        rw [hrest_eq] at hcont
        obtain ⟨rest', hrest'⟩ := hcont
        have hrest'' : rest = body ++ '\x7d' :: rest' := by
          rw [← hrest']
          simp
        have hfirst : findSub ['\x7d'] rest = some (body, rest') := by
          rw [hrest'']
          exact findSub_first_close body rest' hb
        have hmidpost : mid = body ∧ post = rest' := by
          rw [hf2] at hfirst
          have h1 := Option.some.inj hfirst
          exact ⟨congrArg Prod.fst h1, congrArg Prod.snd h1⟩
        obtain ⟨hmid, hpost⟩ := hmidpost
        have hrest3 : rest = body ++ '\x7d' :: post := by
          rw [hpost]
          exact hrest''
        rw [reSub_of_match lit hlit _ z pre rest mid post hf hf2]
        have hglen : post.length < n := by
          have hlen1 := congrArg List.length hdz
          have hlen2 := congrArg List.length hdrest
          simp only [List.length_append, List.length_cons, List.length_nil] at hlen1 hlen2
          have hl : 1 ≤ lit.length := by
            cases lit with
            | nil => exact absurd rfl hlit
            | cons c cs => simp
          omega
        have hgpost : goodF lit body post := by
          have hz2 : z = (pre ++ lit ++ body ++ ['\x7d']) ++ post := by
            rw [hdz, hrest3]
            simp
          rw [hz2] at hg
          exact goodF_append_right lit body _ post hg
        rw [ih post.length hglen post rfl hgpost]
        rw [hdz, hrest3]
        simp

theorem getElem?_middle (A mid R : List Char) (i : Nat) (h1 : A.length ≤ i)
    (h2 : i < A.length + mid.length) :
    (A ++ mid ++ R)[i]? = mid[i - A.length]? := by
  rw [List.append_assoc, List.getElem?_append_right h1, List.getElem?_append,
    if_pos (by omega)]

/-- No occurrence of a literal `field ++ "{fileID: "` can straddle the body
or closing brace of a substituted reference `lit ++ body ++ '}'`: its unique
open brace would have to land on a character that is not an open brace, or
its window would have to contain the closing brace.  So any occurrence lies
entirely in `pre ++ lit` or entirely in the tail `v`. -/
theorem no_straddle
    (litf : List Char) (hf9 : 9 ≤ litf.length)
    (hfclose : '\x7d' ∉ litf)
    (hfbrace : ∀ k : Nat, (hk : k < litf.length) →
      (litf[k] = '\x7b' ↔ k = litf.length - 9))
    (lits2 : List Char) (hs9 : 9 ≤ lits2.length)
    (hsbrace : ∀ k : Nat, (hk : k < lits2.length) →
      (lits2[k] = '\x7b' ↔ k = lits2.length - 9))
    (bodys : List Char) (hbno : '\x7b' ∉ bodys)
    (pre v : List Char) (q : Nat)
    (hocc : occAt litf (pre ++ lits2 ++ bodys ++ '\x7d' :: v) q) :
    q + litf.length ≤ pre.length + lits2.length ∨
    pre.length + lits2.length + bodys.length + 1 ≤ q := by
  by_contra hcon
  push_neg at hcon
  obtain ⟨h1, h2⟩ := hcon
  by_cases hcovC : pre.length + lits2.length + bodys.length < q + litf.length
  · -- the window covers the closing brace
    have hk : (pre.length + lits2.length + bodys.length) - q < litf.length := by omega
    have hchar := occAt_get litf _ q hocc
      ((pre.length + lits2.length + bodys.length) - q) hk
    rw [show q + ((pre.length + lits2.length + bodys.length) - q)
        = pre.length + lits2.length + bodys.length from by omega] at hchar
    have hC := getElem?_at_append (pre ++ lits2 ++ bodys) '\x7d' v
    rw [show (pre ++ lits2 ++ bodys).length
        = pre.length + lits2.length + bodys.length from by
          simp only [List.length_append]] at hC
    have hx := hchar.symm.trans hC
    rw [List.getElem?_eq_some] at hx
    obtain ⟨hlt', hval⟩ := hx
    exact hfclose (hval ▸ List.getElem_mem hlt')
  · -- the window ends before the brace but starts at or before the body:
    -- the unique open brace of litf lands in a brace-free zone
    push_neg at hcovC
    have hk0 : litf.length - 9 < litf.length := by omega
    have hbr : litf[litf.length - 9] = '\x7b' := (hfbrace _ hk0).mpr rfl
    have hchar := occAt_get litf _ q hocc (litf.length - 9) hk0
    have hlitv : litf[litf.length - 9]? = some '\x7b' :=
      List.getElem?_eq_some.mpr ⟨hk0, hbr⟩
    rw [hlitv] at hchar
    by_cases hp0 : q + (litf.length - 9) < pre.length + lits2.length
    · -- the open brace lands strictly after the open brace of lits2
      have hge : pre.length ≤ q + (litf.length - 9) := by omega
      have hmidv := getElem?_middle pre lits2 (bodys ++ '\x7d' :: v)
        (q + (litf.length - 9)) hge (by omega)
      rw [show pre ++ lits2 ++ (bodys ++ '\x7d' :: v)
          = pre ++ lits2 ++ bodys ++ '\x7d' :: v from by simp] at hmidv
      have hx := hmidv.symm.trans hchar
      rw [List.getElem?_eq_some] at hx
      obtain ⟨hjlt, hjval⟩ := hx
      have hj := (hsbrace _ hjlt).mp hjval
      omega
    · -- the open brace lands inside the brace-free body
      push_neg at hp0
      have hmidv := getElem?_middle (pre ++ lits2) bodys ('\x7d' :: v)
        (q + (litf.length - 9)) (by simp; omega) (by simp; omega)
      have hx := hmidv.symm.trans hchar
      rw [List.getElem?_eq_some] at hx
      obtain ⟨hjlt, hjval⟩ := hx
      exact hbno (hjval ▸ List.getElem_mem hjlt)

theorem goodF_beyond (lit body A w : List Char)
    (hw : goodF lit body w) (q' : Nat)
    (hq : occAt lit (A ++ w) (A.length + q'))
    (hmem : '\x7d' ∈ (A ++ w).drop (A.length + q' + lit.length)) :
    (body ++ ['\x7d']) <+: (A ++ w).drop (A.length + q' + lit.length) := by
  have e : (A ++ w).drop (A.length + q' + lit.length) = w.drop (q' + lit.length) := by
    rw [Nat.add_assoc]
    exact drop_append_len A w _
  rw [e] at hmem ⊢
  exact hw q' ((occAt_append_right lit A w q').mp hq) hmem

theorem good_create_aux (lit : List Char) (hlit : lit ≠ []) (body : List Char)
    (h9 : 9 ≤ lit.length)
    (hclose : '\x7d' ∉ lit)
    (hbrace : ∀ k : Nat, (hk : k < lit.length) →
      (lit[k] = '\x7b' ↔ k = lit.length - 9))
    (hbodyno : '\x7b' ∉ body) :
    ∀ n : Nat, ∀ x : List Char, x.length = n →
      goodF lit body (reSub lit hlit (lit ++ body ++ ['\x7d']) x) := by
  intro n
  induction n using Nat.strong_induction_on with
  | _ n ih =>
    intro x hxn
    cases hf : findSub lit x with
    | none =>
      rw [reSub_of_none lit hlit _ x hf]
      intro q hq hmem
      exact absurd hq (findSub_none_not_occAt lit hlit x hf q)
    | some pr =>
      obtain ⟨pre, rest⟩ := pr
      cases hf2 : findSub ['\x7d'] rest with
      | none =>
        rw [reSub_of_noclose lit hlit _ x pre rest hf hf2]
        intro q hq hmem
        exfalso
        have hminq : pre.length ≤ q := by
          by_contra hlt
          push_neg at hlt
          exact findSub_some_not_occAt lit x pre rest hf q hlt hq
        have hdz : x = pre ++ lit ++ rest := findSub_decomp lit x pre rest hf
        have hrest_eq : x.drop (pre.length + lit.length) = rest := by
          rw [hdz]
          exact drop_two pre lit rest
        have hmem2 : '\x7d' ∈ rest := by
          rw [← hrest_eq]
          exact mem_drop_of_le '\x7d' x _ _ (by omega) hmem
        obtain ⟨a, t, hat⟩ := List.append_of_mem hmem2
        exact findSub_none_no_occurrence ['\x7d'] closeBrace_ne rest hf2
          ⟨a, t, by simpa using hat⟩
      | some pr2 =>
        obtain ⟨mid, post⟩ := pr2
        rw [reSub_of_match lit hlit _ x pre rest mid post hf hf2]
        have hdz : x = pre ++ lit ++ rest := findSub_decomp lit x pre rest hf
        have hdrest : rest = mid ++ ['\x7d'] ++ post :=
          findSub_decomp ['\x7d'] rest mid post hf2
        have hlen1 := congrArg List.length hdz
        have hlen2 := congrArg List.length hdrest
        simp only [List.length_append, List.length_cons, List.length_nil]
          at hlen1 hlen2
        have hw := ih post.length (by omega) post rfl
        have hshape : pre ++ (lit ++ body ++ ['\x7d'])
            ++ reSub lit hlit (lit ++ body ++ ['\x7d']) post
            = pre ++ lit ++ body
              ++ '\x7d' :: reSub lit hlit (lit ++ body ++ ['\x7d']) post := by
          simp
        rw [hshape]
        intro q hq hmem
        rcases no_straddle lit h9 hclose hbrace lit h9 hbrace body hbodyno
          pre (reSub lit hlit (lit ++ body ++ ['\x7d']) post) q hq with hL | hR
        · have hP1 : (pre ++ lit) <+: (pre ++ lit ++ body
              ++ '\x7d' :: reSub lit hlit (lit ++ body ++ ['\x7d']) post) :=
            ⟨body ++ '\x7d' :: reSub lit hlit (lit ++ body ++ ['\x7d']) post, by simp⟩
          have hP2 : (pre ++ lit) <+: x := by
            rw [hdz]
            exact ⟨rest, by simp⟩
          have hoccP := occAt_restrict lit (pre ++ lit) _ q hP1 hq
            (by simp only [List.length_append]; omega)
          have hoccx := occAt_extend lit (pre ++ lit) x q hP2 hoccP
          have hminq : pre.length ≤ q := by
            by_contra hlt
            push_neg at hlt
            exact findSub_some_not_occAt lit x pre rest hf q hlt hoccx
          have hqeq : q = pre.length := by
            omega
          subst hqeq
          rw [show pre ++ lit ++ body
              ++ '\x7d' :: reSub lit hlit (lit ++ body ++ ['\x7d']) post
              = (pre ++ lit) ++ (body
                ++ '\x7d' :: reSub lit hlit (lit ++ body ++ ['\x7d']) post)
              from by simp,
            show pre.length + lit.length = (pre ++ lit).length from by
              simp only [List.length_append],
            List.drop_left]
          exact ⟨reSub lit hlit (lit ++ body ++ ['\x7d']) post, by simp⟩
        · have hyshape : pre ++ lit ++ body
              ++ '\x7d' :: reSub lit hlit (lit ++ body ++ ['\x7d']) post
              = (pre ++ lit ++ body ++ ['\x7d'])
                ++ reSub lit hlit (lit ++ body ++ ['\x7d']) post := by
            simp
          have hAlen : (pre ++ lit ++ body ++ ['\x7d']).length
              = pre.length + lit.length + body.length + 1 := by
            simp only [List.length_append, List.length_cons, List.length_nil]
          obtain ⟨q', hq'⟩ : ∃ q', q = (pre ++ lit ++ body ++ ['\x7d']).length + q' := by
            refine ⟨q - (pre ++ lit ++ body ++ ['\x7d']).length, ?_⟩
            rw [hAlen]
            omega
          subst hq'
          rw [hyshape] at hq hmem ⊢
          exact goodF_beyond lit body _ _ hw q' hq hmem

theorem good_preserve_aux
    (litf : List Char) (hf9 : 9 ≤ litf.length)
    (hfclose : '\x7d' ∉ litf)
    (hfbrace : ∀ k : Nat, (hk : k < litf.length) →
      (litf[k] = '\x7b' ↔ k = litf.length - 9))
    (bodyf : List Char) (hbf2 : bodyf[0]? = some '2') (hbfopen : '\x7b' ∉ bodyf)
    (lits2 : List Char) (hs_ne : lits2 ≠ []) (hs9 : 9 ≤ lits2.length)
    (hsbrace : ∀ k : Nat, (hk : k < lits2.length) →
      (lits2[k] = '\x7b' ↔ k = lits2.length - 9))
    (hs2 : '2' ∉ lits2)
    (bodys : List Char) (hbsopen : '\x7b' ∉ bodys)
    (hc5a : litf.length ≤ lits2.length → litf ≠ lits2.drop (lits2.length - litf.length))
    (hc5b : lits2.length < litf.length → lits2 ≠ litf.drop (litf.length - lits2.length)) :
    ∀ n : Nat, ∀ z : List Char, z.length = n → goodF litf bodyf z →
      goodF litf bodyf (reSub lits2 hs_ne (lits2 ++ bodys ++ ['\x7d']) z) := by
  obtain ⟨hbflen, hbfval⟩ := List.getElem?_eq_some.mp hbf2
  intro n
  induction n using Nat.strong_induction_on with
  | _ n ih =>
    intro z hzn hg
    cases hf : findSub lits2 z with
    | none =>
      rw [reSub_of_none lits2 hs_ne _ z hf]
      exact hg
    | some pr =>
      obtain ⟨pre, rest⟩ := pr
      cases hf2 : findSub ['\x7d'] rest with
      | none =>
        rw [reSub_of_noclose lits2 hs_ne _ z pre rest hf hf2]
        exact hg
      | some pr2 =>
        obtain ⟨mid, post⟩ := pr2
        rw [reSub_of_match lits2 hs_ne _ z pre rest mid post hf hf2]
        have hdz : z = pre ++ lits2 ++ rest := findSub_decomp lits2 z pre rest hf
        have hdrest : rest = mid ++ ['\x7d'] ++ post :=
          findSub_decomp ['\x7d'] rest mid post hf2
        have hlen1 := congrArg List.length hdz
        have hlen2 := congrArg List.length hdrest
        simp only [List.length_append, List.length_cons, List.length_nil]
          at hlen1 hlen2
        have hgpost : goodF litf bodyf post := by
          have hg2 := hg
          rw [show z = (pre ++ lits2 ++ mid ++ ['\x7d']) ++ post from by
            rw [hdz, hdrest]; simp] at hg2
          exact goodF_append_right litf bodyf _ post hg2
        have hw := ih post.length (by omega) post rfl hgpost
        set W := reSub lits2 hs_ne (lits2 ++ bodys ++ ['\x7d']) post with hWdef
        have hshape : pre ++ (lits2 ++ bodys ++ ['\x7d']) ++ W
            = pre ++ lits2 ++ bodys ++ '\x7d' :: W := by simp
        rw [hshape]
        intro q hq hmem
        rcases no_straddle litf hf9 hfclose hfbrace lits2 hs9 hsbrace bodys hbsopen
          pre W q hq with hL | hR
        · -- the occurrence lies in pre ++ lits2: transfer to z and back
          have hP1 : (pre ++ lits2) <+: (pre ++ lits2 ++ bodys ++ '\x7d' :: W) :=
            ⟨bodys ++ '\x7d' :: W, by simp⟩
          have hP2 : (pre ++ lits2) <+: z := by
            rw [hdz]
            exact ⟨rest, by simp⟩
          have hoccP := occAt_restrict litf (pre ++ lits2) _ q hP1 hq
            (by simp only [List.length_append]; omega)
          have hoccz := occAt_extend litf (pre ++ lits2) z q hP2 hoccP
          have hrest_eq : z.drop (pre.length + lits2.length) = rest := by
            rw [hdz]
            exact drop_two pre lits2 rest
          have hclosez : '\x7d' ∈ z.drop (q + litf.length) := by
            refine mem_drop_of_le '\x7d' z _ (pre.length + lits2.length) (by omega) ?_
            rw [hrest_eq, hdrest]
            simp
          have hcont := hg q hoccz hclosez
          have hoccbf : occAt bodyf z (q + litf.length) := by
            refine ⟨?_, (List.prefix_append bodyf ['\x7d']).trans hcont⟩
            have hl := List.IsPrefix.length_le hcont
            rw [List.length_drop] at hl
            simp only [List.length_append, List.length_cons, List.length_nil] at hl
            have := hoccz.1
            omega
          have hnocross : q + litf.length + bodyf.length + 1
              ≤ pre.length + lits2.length := by
            by_contra hcr
            push_neg at hcr
            by_cases hd0 : q + litf.length = pre.length + lits2.length
            · -- the window ends exactly at the end of lits2: suffix alignment
              have hlendrop : ((pre ++ lits2).drop q).length = litf.length := by
                rw [List.length_drop]
                simp only [List.length_append]
                omega
              have hdropP : litf = (pre ++ lits2).drop q :=
                List.IsPrefix.eq_of_length hoccP.2 (by rw [hlendrop])
              by_cases hfs : litf.length ≤ lits2.length
              · apply hc5a hfs
                obtain ⟨k, hk⟩ : ∃ k, k = lits2.length - litf.length := ⟨_, rfl⟩
                rw [← hk, hdropP, show q = pre.length + k from by omega,
                  drop_append_len]
              · push_neg at hfs
                apply hc5b hfs
                obtain ⟨k, hk⟩ : ∃ k, k = litf.length - lits2.length := ⟨_, rfl⟩
                rw [← hk, hdropP, List.drop_drop,
                  show q + k = pre.length from by omega, List.drop_left]
            · -- the window ends strictly inside lits2; the copied body starts
              -- with '2' or contains the open brace of lits2
              have hd1 : q + litf.length < pre.length + lits2.length := by omega
              by_cases hdsm : pre.length + lits2.length - (q + litf.length)
                  ≤ lits2.length
              · -- bodyf[0] = '2' lands inside lits2
                have hchar := occAt_get bodyf z (q + litf.length) hoccbf 0 hbflen
                rw [Nat.add_zero, hbf2] at hchar
                have hmidv := getElem?_middle pre lits2 rest (q + litf.length)
                  (by omega) (by omega)
                rw [← hdz] at hmidv
                have hx := hmidv.symm.trans hchar
                rw [List.getElem?_eq_some] at hx
                obtain ⟨hjlt, hjval⟩ := hx
                exact hs2 (hjval ▸ List.getElem_mem hjlt)
              · -- the open brace of lits2 lands inside the brace-free bodyf
                push_neg at hdsm
                have hkb : pre.length + lits2.length - 9 - (q + litf.length)
                    < bodyf.length := by omega
                have hchar := occAt_get bodyf z (q + litf.length) hoccbf
                  (pre.length + lits2.length - 9 - (q + litf.length)) hkb
                rw [show q + litf.length
                    + (pre.length + lits2.length - 9 - (q + litf.length))
                    = pre.length + lits2.length - 9 from by omega] at hchar
                have hmidv := getElem?_middle pre lits2 rest
                  (pre.length + lits2.length - 9) (by omega) (by omega)
                rw [← hdz] at hmidv
                have hz9 : z[pre.length + lits2.length - 9]? = some '\x7b' := by
                  rw [hmidv, show pre.length + lits2.length - 9 - pre.length
                    = lits2.length - 9 from by omega]
                  exact List.getElem?_eq_some.mpr
                    ⟨by omega, (hsbrace _ (by omega)).mpr rfl⟩
                have hx := hchar.symm.trans hz9
                rw [List.getElem?_eq_some] at hx
                obtain ⟨hjlt, hjval⟩ := hx
                exact hbfopen (hjval ▸ List.getElem_mem hjlt)
          -- the whole continuation lies in the shared prefix: transfer it back
          have hoccc : occAt (bodyf ++ ['\x7d']) z (q + litf.length) := by
            refine ⟨?_, hcont⟩
            have hl := List.IsPrefix.length_le hcont
            rw [List.length_drop] at hl
            simp only [List.length_append, List.length_cons, List.length_nil]
              at hl ⊢
            have h1 := hoccz.1
            omega
          have hoccPc := occAt_restrict (bodyf ++ ['\x7d']) (pre ++ lits2) z
            (q + litf.length) hP2 hoccc
            (by simp only [List.length_append, List.length_cons, List.length_nil]
                omega)
          have hoccyc := occAt_extend (bodyf ++ ['\x7d']) (pre ++ lits2)
            (pre ++ lits2 ++ bodys ++ '\x7d' :: W) (q + litf.length) hP1 hoccPc
          exact hoccyc.2
        · -- the occurrence lies in the substituted tail W
          have hyshape : pre ++ lits2 ++ bodys ++ '\x7d' :: W
              = (pre ++ lits2 ++ bodys ++ ['\x7d']) ++ W := by simp
          have hAlen : (pre ++ lits2 ++ bodys ++ ['\x7d']).length
              = pre.length + lits2.length + bodys.length + 1 := by
            simp only [List.length_append, List.length_cons, List.length_nil]
          obtain ⟨q', hq'⟩ : ∃ q',
              q = (pre ++ lits2 ++ bodys ++ ['\x7d']).length + q' := by
            refine ⟨q - (pre ++ lits2 ++ bodys ++ ['\x7d']).length, ?_⟩
            rw [hAlen]
            omega
          subst hq'
          rw [hyshape] at hq hmem ⊢
          exact goodF_beyond litf bodyf _ _ hw q' hq hmem

/-- The claim's hexadecimal-GUID hypothesis: every character is a hex digit
(lowercase, as Unity writes GUIDs). -/
def hexGuid (g : String) : Prop :=
  ∀ c ∈ g.toList, c.isDigit = true ∨ ('a' ≤ c ∧ c ≤ 'f')

instance (g : String) : Decidable (hexGuid g) := by
  unfold hexGuid
  infer_instance

/-- The part of a substituted reference strictly between `field ++ "{fileID: "`
and the closing brace. -/
def bodyOfG (guid : String) : List Char :=
  "2800000, guid: ".toList ++ guid.toList ++ ", type: 3".toList

theorem make_ref_decomp (field guid : String) :
    (field ++ make_tex_ref guid).toList
      = texPatLit field ++ bodyOfG guid ++ ['\x7d'] := by
  unfold make_tex_ref texPatLit bodyOfG
  show (field ++ ("\x7bfileID: 2800000, guid: " ++ guid ++ ", type: 3\x7d")).data
    = (field ++ "\x7bfileID: ").data
      ++ (("2800000, guid: " : String).data ++ guid.data
        ++ (", type: 3" : String).data) ++ ['\x7d']
  simp [String.data_append, List.append_assoc]

theorem subTexRef_eq (field guid : String) (s : List Char) :
    subTexRef field guid s
      = reSub (texPatLit field) (texPatLit_ne field)
          (texPatLit field ++ bodyOfG guid ++ ['\x7d']) s := by
  unfold subTexRef
  rw [make_ref_decomp]

theorem bodyOfG_no_open (g : String) (hg : hexGuid g) : '\x7b' ∉ bodyOfG g := by
  unfold bodyOfG
  intro hmem
  rcases List.mem_append.mp hmem with h | h
  · rcases List.mem_append.mp h with h1 | h1
    · exact absurd h1 (by decide)
    · rcases hg _ h1 with hd | hd
      · exact absurd hd (by decide)
      · exact absurd hd.2 (by decide)
  · exact absurd h (by decide)

theorem bodyOfG_no_close (g : String) (hg : hexGuid g) : '\x7d' ∉ bodyOfG g := by
  unfold bodyOfG
  intro hmem
  rcases List.mem_append.mp hmem with h | h
  · rcases List.mem_append.mp h with h1 | h1
    · exact absurd h1 (by decide)
    · rcases hg _ h1 with hd | hd
      · exact absurd hd (by decide)
      · exact absurd hd.2 (by decide)
  · exact absurd h (by decide)

theorem bodyOfG_head (g : String) : (bodyOfG g)[0]? = some '2' := rfl

/-- A substitution's own output satisfies its invariant. -/
theorem subTexRef_good_self (field guid : String)
    (h9 : 9 ≤ (texPatLit field).length)
    (hclose : '\x7d' ∉ texPatLit field)
    (hbrace : ∀ k : Nat, (hk : k < (texPatLit field).length) →
      ((texPatLit field)[k] = '\x7b' ↔ k = (texPatLit field).length - 9))
    (hg : hexGuid guid) (x : List Char) :
    goodF (texPatLit field) (bodyOfG guid) (subTexRef field guid x) := by
  rw [subTexRef_eq]
  exact good_create_aux (texPatLit field) (texPatLit_ne field) (bodyOfG guid)
    h9 hclose hbrace (bodyOfG_no_open guid hg) x.length x rfl

/-- A different field's substitution preserves the invariant. -/
theorem subTexRef_good_other (fo go f g : String) (z : List Char)
    (hf9 : 9 ≤ (texPatLit f).length)
    (hfclose : '\x7d' ∉ texPatLit f)
    (hfbrace : ∀ k : Nat, (hk : k < (texPatLit f).length) →
      ((texPatLit f)[k] = '\x7b' ↔ k = (texPatLit f).length - 9))
    (ho9 : 9 ≤ (texPatLit fo).length)
    (hobrace : ∀ k : Nat, (hk : k < (texPatLit fo).length) →
      ((texPatLit fo)[k] = '\x7b' ↔ k = (texPatLit fo).length - 9))
    (ho2 : '2' ∉ texPatLit fo)
    (hc5a : (texPatLit f).length ≤ (texPatLit fo).length →
      texPatLit f ≠ (texPatLit fo).drop
        ((texPatLit fo).length - (texPatLit f).length))
    (hc5b : (texPatLit fo).length < (texPatLit f).length →
      texPatLit fo ≠ (texPatLit f).drop
        ((texPatLit f).length - (texPatLit fo).length))
    (hg : hexGuid g) (hgo : hexGuid go)
    (hgood : goodF (texPatLit f) (bodyOfG g) z) :
    goodF (texPatLit f) (bodyOfG g) (subTexRef fo go z) := by
  rw [subTexRef_eq]
  exact good_preserve_aux (texPatLit f) hf9 hfclose hfbrace (bodyOfG g)
    (bodyOfG_head g) (bodyOfG_no_open g hg)
    (texPatLit fo) (texPatLit_ne fo) ho9 hobrace ho2
    (bodyOfG go) (bodyOfG_no_open go hgo) hc5a hc5b z.length z rfl hgood

/-- The invariant makes a substitution the identity. -/
theorem subTexRef_fixed (field guid : String) (hg : hexGuid guid) (z : List Char)
    (hgood : goodF (texPatLit field) (bodyOfG guid) z) :
    subTexRef field guid z = z := by
  rw [subTexRef_eq]
  exact good_fixed_aux (texPatLit field) (texPatLit_ne field) (bodyOfG guid)
    (bodyOfG_no_close guid hg) z.length z rfl hgood

theorem subAllTex_idem (gt gs gb : String)
    (hgt : hexGuid gt) (hgs : hexGuid gs) (hgb : hexGuid gb)
    (content : List Char) :
    subAllTex gt gs gb (subAllTex gt gs gb content)
      = subAllTex gt gs gb content := by
  unfold subAllTex
  have hT : goodF (texPatLit "topTexture: ") (bodyOfG gt)
      (subTexRef "bottomTexture: " gb (subTexRef "sideTexture: " gs
        (subTexRef "topTexture: " gt content))) := by
    refine subTexRef_good_other "bottomTexture: " gb "topTexture: " gt _
      (by decide) (by decide) (by decide) (by decide) (by decide) (by decide)
      (by decide) (by decide) hgt hgb ?_
    refine subTexRef_good_other "sideTexture: " gs "topTexture: " gt _
      (by decide) (by decide) (by decide) (by decide) (by decide) (by decide)
      (by decide) (by decide) hgt hgs ?_
    exact subTexRef_good_self "topTexture: " gt (by decide) (by decide)
      (by decide) hgt content
  have hS : goodF (texPatLit "sideTexture: ") (bodyOfG gs)
      (subTexRef "bottomTexture: " gb (subTexRef "sideTexture: " gs
        (subTexRef "topTexture: " gt content))) := by
    refine subTexRef_good_other "bottomTexture: " gb "sideTexture: " gs _
      (by decide) (by decide) (by decide) (by decide) (by decide) (by decide)
      (by decide) (by decide) hgs hgb ?_
    exact subTexRef_good_self "sideTexture: " gs (by decide) (by decide)
      (by decide) hgs _
  have hB : goodF (texPatLit "bottomTexture: ") (bodyOfG gb)
      (subTexRef "bottomTexture: " gb (subTexRef "sideTexture: " gs
        (subTexRef "topTexture: " gt content))) :=
    subTexRef_good_self "bottomTexture: " gb (by decide) (by decide)
      (by decide) hgb _
  rw [subTexRef_fixed "topTexture: " gt hgt _ hT,
    subTexRef_fixed "sideTexture: " gs hgs _ hS,
    subTexRef_fixed "bottomTexture: " gb hgb _ hB]

/-- C9: update_asset is idempotent on the asset text.  For hexadecimal GUIDs,
applying the three regex substitutions a second time yields exactly the same
content (first conjunct, for every content), and a second update_asset run on
the file system written by a successful first run rewrites the identical file
system (second conjunct): the pattern matches the previously written full
reference and replaces it by itself. -/
theorem update_asset_idempotent (gt gs gb : String)
    (hgt : hexGuid gt) (hgs : hexGuid gs) (hgb : hexGuid gb) :
    (∀ content : List Char,
        subAllTex gt gs gb (subAllTex gt gs gb content)
          = subAllTex gt gs gb content) ∧
    (∀ (fs : FS) (path name : String) (gm : Nat → Option String)
        (ti si bi : Nat) (fs2 : FS),
        BLOCK_TILE_MAP.lookup name = some (ti, si, bi) →
        gm ti = some gt → gm si = some gs → gm bi = some gb →
        update_asset fs path name gm = .ok (true, fs2, []) →
        update_asset fs2 path name gm = .ok (true, fs2, [])) := by
  refine ⟨subAllTex_idem gt gs gb hgt hgs hgb, ?_⟩
  intro fs path name gm ti si bi fs2 hl hmt hms hmb hrun
  by_cases hair : name = "Block_Air"
  · exfalso
    unfold update_asset at hrun
    rw [hl] at hrun
    dsimp only at hrun
    rw [if_pos hair] at hrun
    simp at hrun
  · unfold update_asset at hrun ⊢
    rw [hl] at hrun ⊢
    dsimp only at hrun ⊢
    rw [if_neg hair] at hrun ⊢
    rw [hmt, hms, hmb] at hrun ⊢
    simp only [Option.getD_some] at hrun ⊢
    cases htr : (pyTruthy (some gt) && pyTruthy (some gs) && pyTruthy (some gb)) with
    | false =>
      rw [htr] at hrun
      simp at hrun
    | true =>
      rw [htr] at hrun
      rw [if_pos rfl] at hrun ⊢
      cases hfsp : fs path with
      | none =>
        rw [hfsp] at hrun
        simp at hrun
      | some content =>
        rw [hfsp] at hrun
        dsimp only at hrun
        have hF : (fun p => if p = path then
            some (String.mk (subAllTex gt gs gb content.toList)) else fs p)
            = fs2 := by
          injection hrun with hpair
          injection hpair with h1 hpair2
          injection hpair2 with h4 h5
        have hfs2path : fs2 path
            = some (String.mk (subAllTex gt gs gb content.toList)) := by
          rw [← hF]
          simp
        rw [hfs2path]
        dsimp only
        rw [show (String.mk (subAllTex gt gs gb content.toList)).toList
            = subAllTex gt gs gb content.toList from rfl]
        rw [subAllTex_idem gt gs gb hgt hgs hgb content.toList]
        have hfun : (fun p => if p = path then
            some (String.mk (subAllTex gt gs gb content.toList)) else fs2 p)
            = fs2 := by
          funext p
          by_cases hp : p = path
          · rw [if_pos hp, hp, hfs2path]
          · rw [if_neg hp]
        rw [hfun]

/-- Witness for C9: a concrete hexadecimal GUID and a concrete content with a
null reference; the substitutions applied twice equal them applied once. -/
theorem update_asset_idempotent_witness :
    hexGuid "ab12" ∧
    subAllTex "ab12" "ab12" "ab12" (subAllTex "ab12" "ab12" "ab12"
        ("topTexture: \x7bfileID: 0\x7d".toList))
      = subAllTex "ab12" "ab12" "ab12" ("topTexture: \x7bfileID: 0\x7d".toList) :=
  ⟨by decide, (update_asset_idempotent "ab12" "ab12" "ab12" (by decide)
    (by decide) (by decide)).1 ("topTexture: \x7bfileID: 0\x7d".toList)⟩
